import Mathlib

/-!
Verification of the deps2git repository (SVN DEPS to .DEPS.git converter).

The development shallowly embeds the Python sources deps2git.py,
deps_utils.py and svn_to_git_public.py as executable Lean definitions and
proves/refutes the frozen claims about them.  External collaborators
(git_tools clone/fetch/search/ping, the filesystem, the network) are
modelled as oracle parameters; everything that lives in the sources
themselves is transcribed.

Conventions used throughout:
* Python strings are Lean String values; character level reasoning is done
  on String.data (List Char).
* Python None for an optional string is Option.none.
* A Python dict is an association list updated in place by dictSet
  (update the first binding with the key, else append).
* Raising an exception is returning Except.error with the exception text.
-/

deriving instance DecidableEq for Except

namespace Deps2Git

/-- Single quote character (kept out of string literals). -/
def sq : Char := Char.ofNat 39

/-- Single quote as a one character string. -/
def sqs : String := String.mk [sq]

/-- Opening curly brace as a one character string. -/
def lbr : String := "\x7b"

/-- Closing curly brace as a one character string. -/
def rbr : String := "\x7d"

/-- Python str.split(sep) on character lists: split at every occurrence of
the separator; the result always has (number of separators + 1) parts. -/
def pySplit (sep : Char) : List Char → List (List Char)
  | [] => [[]]
  | c :: cs =>
    let r := pySplit sep cs
    if c = sep then [] :: r else (c :: r.headD []) :: r.tail

/-- Python str.lstrip(ch): drop every leading occurrence of the character. -/
def pyLstrip (ch : Char) (s : List Char) : List Char := s.dropWhile (· = ch)

/-- Python str(x) for an optional string: None prints as "None". -/
def pyStrOpt : Option String → String
  | none => "None"
  | some s => s

/-- Association list lookup (Python dict membership / indexing). -/
def dictGet {κ α : Type} [DecidableEq κ] (k : κ) : List (κ × α) → Option α
  | [] => none
  | (k2, v) :: rest => if k2 = k then some v else dictGet k rest

/-- Association list update: replace the first binding of the key, else
append the new binding at the end (Python dict assignment). -/
def dictSet {κ α : Type} [DecidableEq κ] (k : κ) (v : α) : List (κ × α) → List (κ × α)
  | [] => [(k, v)]
  | (k2, v2) :: rest => if k2 = k then (k, v) :: rest else (k2, v2) :: dictSet k v rest

/-- Python dict.update: apply every binding of the second map to the first. -/
def dictUpdate {κ α : Type} [DecidableEq κ] (base upd : List (κ × α)) : List (κ × α) :=
  upd.foldl (fun acc kv => dictSet kv.1 kv.2 acc) base

/-- Fuelled replace-all: Python str.replace(pat, rep) scanning left to
right over non overlapping occurrences.  The fuel bounds the number of
consumed characters, so the definition is structurally recursive and
computes by kernel reduction. -/
def replaceAllF (pat rep : List Char) : Nat → List Char → List Char
  | _, [] => []
  | 0, s => s
  | Nat.succ n, c :: cs =>
    if pat ≠ [] ∧ pat.isPrefixOf (c :: cs) then
      rep ++ replaceAllF pat rep n (cs.drop (pat.length - 1))
    else
      c :: replaceAllF pat rep n cs

/-- Python str.replace(pat, rep) on character lists. -/
def replaceAll (pat rep s : List Char) : List Char := replaceAllF pat rep s.length s

/-- Python str.replace on strings. -/
def pyReplace (s pat rep : String) : String :=
  String.mk (replaceAll pat.data rep.data s.data)

/-- Python str.endswith on strings, via character lists (structurally
computable). -/
def pyEndsWith (s suffix : String) : Bool := suffix.data.isSuffixOf s.data

/-- Python str.startswith on strings, via character lists (structurally
computable). -/
def pyStartsWith (s pre : String) : Bool := pre.data.isPrefixOf s.data

/-! ## deps2git.SplitScmUrl -/

/-- Embedding of deps2git.SplitScmUrl (deps2git.py lines 39-46): split a
location into URL and revision at the at-sign; the revision defaults to
HEAD unless the split yields exactly two parts. -/
def SplitScmUrl (url : String) : String × String :=
  let url_split := pySplit '@' url.data
  let scm_url := String.mk (url_split.headD [])
  let scm_rev := if url_split.length = 2 then String.mk ((url_split.drop 1).headD []) else "HEAD"
  (scm_url, scm_rev)

/-! ## Regular expression helpers

The rule module svn_to_git_public.py uses re.match with a handful of fixed
patterns.  Each pattern is transcribed as a dedicated matcher below.  A dot
in the transcribed pattern string is the regex wildcard (any character
except a newline), exactly as in the unescaped Python patterns; a star
group captures greedily within the current line, and re.match anchors at
the start of the string without requiring a full match. -/

/-- One pattern character against one subject character, dot is a
wildcard for any character except a newline. -/
def wildeq (p c : Char) : Bool := if p = '.' then c ≠ '\n' else p = c

/-- Match a literal-with-wildcards pattern as a prefix, returning the
remainder of the subject on success. -/
def wmatchPrefix : List Char → List Char → Option (List Char)
  | [], s => some s
  | _ :: _, [] => none
  | p :: ps, c :: cs => if wildeq p c then wmatchPrefix ps cs else none

/-- Does the pattern match at the start of the subject. -/
def wmatchesAt (pat s : List Char) : Bool := (wmatchPrefix pat s).isSome

/-- Largest index at which the pattern matches and the extra side
condition holds (the greedy choice of a star group before the pattern). -/
def wfindLastSuchThat (pat s : List Char) (ok : Nat → Bool) : Option Nat :=
  (List.range (s.length + 1)).reverse.find? (fun i => wmatchesAt pat (s.drop i) && ok i)

/-- Largest index at which the pattern matches inside the subject. -/
def wfindLast (pat s : List Char) : Option Nat :=
  wfindLastSuchThat pat s (fun _ => true)

/-- The pattern fragment htt p? :// of the sourceforge and googlecode
trunk patterns: the optional p is tried greedily first. -/
def matchHttpOpt (s : List Char) : Option (List Char) :=
  match wmatchPrefix "http://".data s with
  | some r => some r
  | none => wmatchPrefix "htt://".data s

/-- Pattern http://src.chromium.org/svn(/.*) — group 1. -/
def re_src_chromium_svn (u : String) : Option String :=
  match wmatchPrefix "http://src.chromium.org/svn".data u.data with
  | none => none
  | some rest =>
    match rest with
    | '/' :: rs => some (String.mk ('/' :: rs.takeWhile (· ≠ '\n')))
    | _ => none

/-- Pattern http?://(.*).svn.sourceforge.net/svnroot/(.*)/trunk(.*) —
groups 2 and 3 (group 1 is unused by the rule). -/
def re_sourceforge (u : String) : Option (String × String) :=
  let line := u.data.takeWhile (· ≠ '\n')
  match matchHttpOpt line with
  | none => none
  | some rest =>
    let w1 := ".svn.sourceforge.net/svnroot/".data
    let trunk := "/trunk".data
    match wfindLastSuchThat w1 rest
        (fun i => (wfindLast trunk (rest.drop (i + w1.length))).isSome) with
    | none => none
    | some i =>
      let after := rest.drop (i + w1.length)
      match wfindLast trunk after with
      | none => none
      | some j =>
        some (String.mk (after.take j), String.mk (after.drop (j + trunk.length)))

/-- Pattern http?://(.*).googlecode.com/svn/trunk(.*) — groups 1 and 2. -/
def re_googlecode_trunk (u : String) : Option (String × String) :=
  let line := u.data.takeWhile (· ≠ '\n')
  match matchHttpOpt line with
  | none => none
  | some rest =>
    let w := ".googlecode.com/svn/trunk".data
    match wfindLast w rest with
    | none => none
    | some i => some (String.mk (rest.take i), String.mk (rest.drop (i + w.length)))

/-- Pattern http://(.*).googlecode.com/svn/branches/(.*) — groups 1 and 2. -/
def re_googlecode_branches (u : String) : Option (String × String) :=
  let line := u.data.takeWhile (· ≠ '\n')
  match wmatchPrefix "http://".data line with
  | none => none
  | some rest =>
    let w := ".googlecode.com/svn/branches/".data
    match wfindLast w rest with
    | none => none
    | some i => some (String.mk (rest.take i), String.mk (rest.drop (i + w.length)))

/-- Pattern http://src.chromium.org/native_client/trunk/(.*) — group 1. -/
def re_native_client (u : String) : Option String :=
  match wmatchPrefix "http://src.chromium.org/native_client/trunk/".data u.data with
  | none => none
  | some rest => some (String.mk (rest.takeWhile (· ≠ '\n')))

/-- Pattern /trunk/((src|tools)/.*) — group 1. -/
def re_trunk_src_tools (u : String) : Option String :=
  match wmatchPrefix "/trunk/".data u.data with
  | none => none
  | some rest =>
    if "src/".data.isPrefixOf rest ∨ "tools/".data.isPrefixOf rest then
      some (String.mk (rest.takeWhile (· ≠ '\n')))
    else none

/-- Pattern /trunk/deps/third_party/(.*) — group 1. -/
def re_trunk_deps_third_party (u : String) : Option String :=
  match wmatchPrefix "/trunk/deps/third_party/".data u.data with
  | none => none
  | some rest => some (String.mk (rest.takeWhile (· ≠ '\n')))

/-- Pattern /trunk/deps/reference_builds/(.*) — group 1. -/
def re_trunk_deps_reference_builds (u : String) : Option String :=
  match wmatchPrefix "/trunk/deps/reference_builds/".data u.data with
  | none => none
  | some rest => some (String.mk (rest.takeWhile (· ≠ '\n')))

namespace svn_to_git_public

/-- svn_to_git_public.py line 11. -/
def GIT_HOST : String := "http://git.chromium.org/"

/-- svn_to_git_public.py lines 18-20: DEPS path to DEPS variable name. -/
def DEPS_OVERRIDES : List (String × String) := [("src/third_party/ffmpeg", "ffmpeg_hash")]

/-- Embedding of svn_to_git_public.SvnUrlToGitUrl (lines 23-130).  The
Python function returns a tuple (modelled as a list of optional strings)
or falls off the end printing a no-match message and returning None
(modelled as Option.none).  Every return in this module is a pair; the
two exclusion returns are pairs of None. -/
def SvnUrlToGitUrl (path : String) (svn_url0 : String) : Option (List (Option String)) :=
  let svn_url := match re_src_chromium_svn svn_url0 with
                 | some g => g
                 | none => svn_url0
  if svn_url = "/trunk/deps/page_cycler/acid3" then
    some [some path, some (GIT_HOST ++ "chromium/deps/acid3.git")]
  else if svn_url = "/trunk/deps/canvas_bench" then
    some [some path, some (GIT_HOST ++ "chromium/canvas_bench.git")]
  else if svn_url = "/trunk/deps/gpu/software_rendering_list" then
    some [some path, some (GIT_HOST ++ "chromium/deps/gpu/software_rendering_list.git")]
  else if svn_url = "/trunk/tools/third_party/python_26" then
    some [some path, some (GIT_HOST ++ "chromium/deps/python_26.git")]
  else if svn_url = "/trunk/deps/support" then
    some [some path, some (GIT_HOST ++ "chromium/support.git")]
  else if svn_url = "/trunk/deps/frame_rate/content" then
    some [some path, some (GIT_HOST ++ "chromium/frame_rate/content.git")]
  else if svn_url = "svn://svn.chromium.org/jsoncpp/trunk/jsoncpp" then
    some [some path, some (GIT_HOST ++ "external/jsoncpp/jsoncpp.git")]
  else if svn_url = "/trunk/deps/third_party/ffmpeg" then
    some [some path, some (GIT_HOST ++ "chromium/third_party/ffmpeg.git")]
  else if svn_url = "http://webrtc.googlecode.com/svn/stable/src" then
    some [some path, some (GIT_HOST ++ "external/webrtc/stable/src.git")]
  else if svn_url = "http://selenium.googlecode.com/svn/trunk/py/test" ∨
          svn_url = "/trunk/deps/reference_builds/chrome" then
    -- those cannot be git svn cloned; the module skips them
    some [none, none]
  else
    match re_sourceforge svn_url with
    | some (g2, g3) => some [some path, some (GIT_HOST ++ "external/" ++ g2 ++ g3 ++ ".git")]
    | none =>
    match re_googlecode_trunk svn_url with
    | some (g1, g2) => some [some path, some (GIT_HOST ++ "external/" ++ g1 ++ g2 ++ ".git")]
    | none =>
    match re_googlecode_branches svn_url with
    | some (g1, g2) => some [some path, some (GIT_HOST ++ "external/" ++ g1 ++ "/" ++ g2 ++ ".git")]
    | none =>
    match re_native_client svn_url with
    | some g => some [some path, some (GIT_HOST ++ "native_client/" ++ g ++ ".git")]
    | none =>
    match re_trunk_src_tools svn_url with
    | some g => some [some path, some (GIT_HOST ++ "chromium/" ++ g ++ ".git")]
    | none =>
    if svn_url = "http://svn.webkit.org/repository/webkit/trunk/Source" then
      some [some "src/third_party/WebKit", some (GIT_HOST ++ "external/WebKit_trimmed.git")]
    else if svn_url = "http://svn.webkit.org/repository/webkit/trunk/Source/WebKit/chromium/public" then
      some [some path, some (GIT_HOST ++ "external/WebKit/Source/WebKit/chromium/public.git")]
    else if svn_url = "http://svn.webkit.org/repository/webkit/trunk/Source/Platform/chromium/public" then
      some [some path, some (GIT_HOST ++ "external/WebKit/Source/Platform/chromium/public.git")]
    else if svn_url = "/trunk/deps/third_party/WebKit" then
      some [none, none]
    else if pyStartsWith svn_url "http://svn.webkit.org" then
      some [none, none]
    else
      match re_trunk_deps_third_party svn_url with
      | some g => some [some path, some (GIT_HOST ++ "chromium/deps/" ++ g ++ ".git")]
      | none =>
      match re_trunk_deps_reference_builds svn_url with
      | some g => some [some path, some (GIT_HOST ++ "chromium/reference_builds/" ++ g ++ ".git")]
      | none => none

end svn_to_git_public

namespace deps_utils

/-- The result of executing a DEPS file: the local scope after exec, with
one optional field per section the file may define.  The vars field is
the legacy variable section some DEPS files carry; GetDepsContent reads
it only through the Var callback during exec and never returns it. -/
structure DepsFileScope where
  deps : Option (List (String × Option String))
  deps_os : Option (List (String × List (String × Option String)))
  include_rules : Option (List String)
  skip_child_includes : Option (List String)
  hooks : Option (List String)
  vars : Option (List (String × String))
deriving DecidableEq, Repr

/-- One element of the tuple returned by GetDepsContent (a Python value). -/
inductive PyVal where
  | depsDict (d : List (String × Option String))
  | osDict (d : List (String × List (String × Option String)))
  | strList (l : List String)
  | hookList (l : List String)
deriving DecidableEq, Repr

/-- Embedding of deps_utils.GetDepsContent (deps_utils.py lines 19-42):
after executing the file, setdefault fills the five sections with empty
containers and the function returns the five of them as a tuple.  The
tuple is modelled as a list of Python values so that the unpacking
performed by the caller can be modelled faithfully. -/
def GetDepsContent (scope : DepsFileScope) : List PyVal :=
  [ .depsDict (scope.deps.getD []),
    .osDict (scope.deps_os.getD []),
    .strList (scope.include_rules.getD []),
    .strList (scope.skip_child_includes.getD []),
    .hookList (scope.hooks.getD []) ]

/-- CPython 2 message for unpacking a too-short sequence into more names. -/
def valueErrorNeedMore (n : Nat) : String :=
  "ValueError: need more than " ++ toString n ++
    (if n = 1 then " value" else " values") ++ " to unpack"

/-- Embedding of the tuple unpacking in deps2git.main (deps2git.py lines
266-268): the result of GetDepsContent is destructured into six names,
which raises ValueError unless the tuple has exactly six elements. -/
def unpack6 (l : List PyVal) :
    Except String (PyVal × PyVal × PyVal × PyVal × PyVal × PyVal) :=
  match l with
  | [a, b, c, d, e, f] => .ok (a, b, c, d, e, f)
  | l =>
    if l.length < 6 then .error (valueErrorNeedMore l.length)
    else .error "ValueError: too many values to unpack"

/-- deps_utils.py defines the module level names VarImpl, GetDepsContent,
PrettyDeps, PrettyObj, Varify and WriteDeps and nothing else; in
particular it defines no marker tag attribute.  deps2git.py line 210
nevertheless reads such an attribute from the module, so the access is
modelled as an optional lookup that is always none, which the caller
turns into the python AttributeError. -/
def varifyMarkerTagAttr : Option String := none

/-- Insertion step for sorting dependency entries by key. -/
def insertByKey (kv : String × Option String) :
    List (String × Option String) → List (String × Option String)
  | [] => [kv]
  | kv2 :: rest => if kv.1 < kv2.1 then kv :: kv2 :: rest else kv2 :: insertByKey kv rest

/-- Python sorted(deps): dependency entries ordered by key. -/
def sortByKey (l : List (String × Option String)) : List (String × Option String) :=
  l.foldr insertByKey []

/-- One entry of the pretty printed deps dictionary: four spaces, the
quoted key, a colon and newline, eight spaces, the quoted value, a comma
and newline (deps_utils.PrettyDeps at indent 0, scalar branch). -/
def prettyEntry (kv : String × Option String) : String :=
  "    " ++ sqs ++ kv.1 ++ sqs ++ ":\n" ++ "        " ++ sqs ++ pyStrOpt kv.2 ++ sqs ++ ",\n"

/-- Embedding of deps_utils.PrettyDeps (deps_utils.py lines 45-65) at
indent 0 applied to a flat dictionary: open brace, one block per entry in
sorted key order, close brace. -/
def PrettyDeps (deps : List (String × Option String)) : String :=
  lbr ++ "\n" ++ String.join ((sortByKey deps).map prettyEntry) ++ rbr

/-- Insertion step for sorting OS partitions by key. -/
def insertOsByKey (kv : String × List (String × Option String)) :
    List (String × List (String × Option String)) →
    List (String × List (String × Option String))
  | [] => [kv]
  | kv2 :: rest => if kv.1 < kv2.1 then kv :: kv2 :: rest else kv2 :: insertOsByKey kv rest

/-- Python sorted on the OS partition dictionary. -/
def sortOsByKey (l : List (String × List (String × Option String))) :
    List (String × List (String × Option String)) :=
  l.foldr insertOsByKey []

/-- Inner entry of a nested dictionary at indent 4 (key at eight spaces,
value at twelve). -/
def prettyInnerEntry (kv : String × Option String) : String :=
  "        " ++ sqs ++ kv.1 ++ sqs ++ ":\n" ++ "            " ++ sqs ++ pyStrOpt kv.2 ++ sqs ++ ",\n"

/-- deps_utils.PrettyDeps at indent 4 applied to a flat dictionary (the
recursive call made for each OS partition value). -/
def prettyDictIndent4 (m : List (String × Option String)) : String :=
  "    " ++ lbr ++ "\n" ++ String.join ((sortByKey m).map prettyInnerEntry) ++ "    " ++ rbr

/-- Embedding of deps_utils.PrettyDeps at indent 0 applied to the OS
partition dictionary, whose values are themselves flat dictionaries. -/
def PrettyDepsOs (deps_os : List (String × List (String × Option String))) : String :=
  lbr ++ "\n" ++
  String.join ((sortOsByKey deps_os).map (fun kv =>
    "    " ++ sqs ++ kv.1 ++ sqs ++ ":\n" ++ prettyDictIndent4 kv.2 ++ ",\n")) ++
  rbr

/-- CPython 2 repr of a dictionary from strings to strings, modelled with
insertion order (the dictionary iteration order of CPython 2 is not
specified; no theorem below depends on this order). -/
def pyReprStrDict (d : List (String × String)) : String :=
  lbr ++ String.intercalate ", " (d.map (fun kv => sqs ++ kv.1 ++ sqs ++ ": " ++ sqs ++ kv.2 ++ sqs)) ++ rbr

/-- CPython 2 repr of a list of strings. -/
def pyReprStrList (l : List String) : String :=
  "[" ++ String.intercalate ", " (l.map (fun x => sqs ++ x ++ sqs)) ++ "]"

/-- Embedding of deps_utils.PrettyObj (deps_utils.py lines 68-76): a
chain of textual replacements over the repr of the object. -/
def PrettyObjStr (s : String) : String :=
  let s1 := pyReplace s lbr (lbr ++ "\n    ")
  let s2 := pyReplace s1 rbr ("\n" ++ rbr)
  let s3 := pyReplace s2 "[" ("[\n    ")
  let s4 := pyReplace s3 "]" ("\n]")
  let s5 := pyReplace s4 (sqs ++ ":") (sqs ++ ":\n        ")
  let s6 := pyReplace s5 ", " (",\n    ")
  s6

/-- First replaced literal of Varify: the quoted trimmed WebKit URL. -/
def webkitTrimmedPat : String := sqs ++ "http://git.chromium.org/external/WebKit_trimmed.git"

/-- First replacement of Varify: the webkit_url variable reference. -/
def webkitUrlVar : String := "Var(" ++ sqs ++ "webkit_url" ++ sqs ++ ")"

/-- Second replaced literal of Varify: the quoted git server host. -/
def gitHostPat : String := sqs ++ "http://git.chromium.org"

/-- Second replacement of Varify: the git_url variable reference plus a
reopened quote. -/
def gitUrlVar : String := "Var(" ++ sqs ++ "git_url" ++ sqs ++ ") + " ++ sqs

/-- Third replaced literal of Varify: the WebKit revision marker with
the closing quote. -/
def webkitRevPat : String := "VAR_WEBKIT_REV" ++ sqs

/-- Third replacement of Varify: concatenation with the webkit_rev
variable reference. -/
def webkitRevVar : String := " + Var(" ++ sqs ++ "webkit_rev" ++ sqs ++ ")"

/-- Embedding of deps_utils.Varify (deps_utils.py lines 79-85): replace
the quoted trimmed WebKit URL with a webkit_url variable reference, the
quoted git server host with a git_url variable reference, and the WebKit
revision marker with a webkit_rev variable reference. -/
def Varify (deps : String) : String :=
  let d1 := pyReplace deps webkitTrimmedPat webkitUrlVar
  let d2 := pyReplace d1 gitHostPat gitUrlVar
  let d3 := pyReplace d2 webkitRevPat webkitRevVar
  d3

/-- Embedding of deps_utils.WriteDeps (deps_utils.py lines 88-104): the
exact text written to the output file (the banner, then each section,
with the deps sections passed through Varify). -/
def WriteDepsStr (vars : List (String × String)) (deps : List (String × Option String))
    (deps_os : List (String × List (String × Option String)))
    (include_rules skip_child_includes hooks : List String) : String :=
  "# DO NOT EDIT EXCEPT FOR LOCAL TESTING.\n" ++
  "# THIS IS A GENERATED FILE.\n" ++
  "# ALL MANUAL CHANGES WILL BE OVERWRITTEN.\n" ++
  "# SEE http://code.google.com/p/chromium/wiki/UsingNewGit\n" ++
  "# FOR HOW TO ROLL DEPS\n" ++
  "vars = " ++ PrettyObjStr (pyReprStrDict vars) ++ "\n\n" ++
  "deps = " ++ Varify (PrettyDeps deps) ++ "\n\n" ++
  "deps_os = " ++ Varify (PrettyDepsOs deps_os) ++ "\n\n" ++
  "include_rules = " ++ PrettyObjStr (pyReprStrList include_rules) ++ "\n\n" ++
  "skip_child_includes = " ++ PrettyObjStr (pyReprStrList skip_child_includes) ++ "\n\n" ++
  "hooks = " ++ PrettyObjStr (pyReprStrList hooks) ++ "\n"

end deps_utils

/-! ## deps2git conversion machinery -/

/-- Python truthiness of an optional string (None and the empty string
are falsy). -/
def pyTruthyOptStr : Option String → Bool
  | none => false
  | some s => s ≠ ""

/-- Command line options of deps2git.py relevant to the conversion. -/
structure Options where
  repos : Option String
  workspace : Option String
  cache_dir : Option String
  shallow : Bool
  verify : Bool
deriving DecidableEq, Repr

/-- Embedding of deps2git.SvnRevToGitHash (deps2git.py lines 49-106).
The git_tools clone, fetch and revision search calls touch the network
and the filesystem and are abstracted into the search oracle, which is
given the repository URL, the legacy revision and the computed refspec.
When no repository directory is configured at all, the function returns
the synthetic xxx-r identifier without any lookup.  A missing URL or
host (Python None) fails like the Python attribute access on None
would. -/
def SvnRevToGitHash (search : String → String → String → Except String String)
    (svn_rev : String) (git_url : Option String) (repos workspace : Option String)
    (dep_path : Option String) (git_host : Option String)
    (svn_branch : Option String) (cache_dir : Option String) : Except String String :=
  match git_url, git_host with
  | some gu, some gh =>
    if pyStartsWith gu gh then
      -- git_repo = git_url.replace(git_host, ""): only used to locate the
      -- local clone, which lives inside the search oracle here
      if repos = none ∧ workspace = none ∧ cache_dir = none then
        .ok ("xxx-r" ++ svn_rev)
      else
        let mirror : Bool := repos.isSome || cache_dir.isSome
        let refspec :=
          if pyTruthyOptStr svn_branch then
            (if mirror then "refs/branch-heads/" else "refs/remotes/branch-heads/") ++
              svn_branch.getD ""
          else
            if mirror then "refs/heads/master" else "refs/remotes/origin/master"
        let _ := dep_path
        let _ := workspace
        search gu svn_rev refspec
    else .error ("Unknown git server " ++ gu ++ ", host " ++ gh)
  | _, _ => .error "AttributeError: NoneType object has no attribute startswith"

/-- A rule module: SvnUrlToGitUrl as a function from (path, URL) to an
optional tuple. -/
abbrev Conv := String → String → Option (List (Option String))

/-- Python truthiness of the value returned by a converter: None is
falsy, a tuple is truthy when nonempty. -/
def tr (r : Option (List (Option String))) : Bool :=
  match r with
  | none => false
  | some l => !l.isEmpty

/-- The first-match loop of deps2git.ConvertDepsToGit (lines 131-137):
try each rule module in order and keep the first truthy result. -/
def selectConverted (dep url : String) : List Conv → Option (List (Option String))
  | [] => none
  | o :: rest => if tr (o dep url) then o dep url else selectConverted dep url rest

/-- One entry of deps_to_process (the Job namedtuple, lines 143-146). -/
structure Job where
  git_url : Option String
  dep_url : String
  path : Option String
  git_host : Option String
  dep_rev : String
  svn_branch : Option String
deriving DecidableEq, Repr

/-- State threaded through the first loop of ConvertDepsToGit: the
initial entries of new_deps (None valued dependencies) and the ordered
jobs still to process. -/
structure BJState where
  new_deps : List (Option String × Option String)
  jobs : List (String × Job)
deriving DecidableEq, Repr

/-- Embedding of the first per-entry block of deps2git.ConvertDepsToGit
(lines 116-146): a falsy location propagates as an explicit None entry;
otherwise the location is split, and a location whose URL part does not
end in .git goes through the rule modules; the kept tuple is unpacked
into three names (raising ValueError when it is shorter) with an
optional fourth branch component; no rule matching is fatal. -/
def buildOne (objs : List Conv) (dep : String) (du : Option String) (s : BJState) :
    Except String BJState :=
  if ¬ pyTruthyOptStr du then
    .ok { s with new_deps := dictSet (some dep) none s.new_deps }
  else
    let l := du.getD ""
    let p := SplitScmUrl l
    let dep_url := p.1
    let dep_rev := p.2
    if ¬ pyEndsWith dep_url ".git" then
      match selectConverted dep dep_url objs with
      | none => .error ("No match found for " ++ dep_url)
      | some cd =>
        match cd.take 3 with
        | [a, b, c] =>
          let svn_branch := if cd.length > 3 then (cd.drop 3).headD none else none
          .ok { s with jobs := s.jobs ++ [(dep, ⟨b, dep_url, a, c, dep_rev, svn_branch⟩)] }
        | sl => .error (deps_utils.valueErrorNeedMore sl.length)
    else
      .ok { s with jobs := s.jobs ++
              [(dep, ⟨some dep_url, dep_url, some dep, some dep_url, dep_rev, none⟩)] }

/-- The whole first loop over the deps dictionary, in iteration order. -/
def buildJobs (objs : List Conv) : List (String × Option String) → BJState → Except String BJState
  | [], s => .ok s
  | (dep, du) :: rest, s => do
      let s2 ← buildOne objs dep du s
      buildJobs objs rest s2

/-- Embedding of the verification retry loop (deps2git.py lines 183-195):
up to five pings; a failed attempt sleeps for the current delay and
doubles it; a successful attempt breaks out.  Returns whether any attempt
succeeded together with the list of sleep delays in seconds. -/
def verifyGo (ping : Nat → Bool) : List Nat → ℚ → Bool × List ℚ
  | [], _ => (false, [])
  | i :: rest, delay =>
    if ping i then (true, [])
    else
      let r := verifyGo ping rest (delay * 2)
      (r.1, delay :: r.2)

/-- The verification loop over try indices 1 to 5 with initial delay of
half a second. -/
def verifyAttempts (ping : Nat → Bool) : Bool × List ℚ :=
  verifyGo ping [1, 2, 3, 4, 5] (1/2)

/-- Embedding of the git hash computation (deps2git.py lines 200-220):
nothing for the HEAD sentinel; for an overridden path, require the DEPS
variable (fatal when missing), copy its at-sign normalized value into
deps_vars, and read the marker tag attribute from deps_utils, which does
not exist there; otherwise pass a .git revision through or resolve via
SvnRevToGitHash. -/
def computeGitHash (search : String → String → String → Except String String)
    (opts : Options) (deps_overrides svn_deps_vars : List (String × String))
    (dep : String) (job : Job) (deps_vars : List (String × String)) :
    Except String (String × List (String × String)) :=
  if job.dep_rev ≠ "HEAD" then
    match dictGet dep deps_overrides with
    | some ovName =>
      match dictGet ovName svn_deps_vars with
      | none => .error ("Missing DEPS variable: " ++ ovName)
      | some v =>
        let dv2 := dictSet ovName ("@" ++ String.mk (pyLstrip '@' v.data)) deps_vars
        match deps_utils.varifyMarkerTagAttr with
        | none => .error ("AttributeError: " ++ sqs ++ "module" ++ sqs ++
            " object has no attribute " ++ sqs ++ "VARIFY_MARKER_TAG_PREFIX" ++ sqs)
        | some pfx => .ok (pfx ++ "_" ++ ovName, dv2)
    | none =>
      if pyEndsWith job.dep_url ".git" then .ok ("@" ++ job.dep_rev, deps_vars)
      else do
        let h ← SvnRevToGitHash search job.dep_rev job.git_url opts.repos opts.workspace
                  job.path job.git_host job.svn_branch opts.cache_dir
        .ok ("@" ++ h, deps_vars)
  else .ok ("", deps_vars)

/-- Embedding of the two path keyed special cases (deps2git.py lines
222-233): for the WebKit path with a truthy revision string the hash is
stored in the webkit_rev variable and replaced by the VAR_WEBKIT_REV
marker; for the angle path with a truthy hash the hash without its
leading at-sign is stored in the angle_revision variable and replaced by
the VAR_ANGLE_REVISION marker. -/
def specialCaseVars (dep dep_rev git_hash : String) (deps_vars : List (String × String)) :
    String × List (String × String) :=
  let st1 :=
    if dep = "src/third_party/WebKit" ∧ dep_rev ≠ "" then
      ("VAR_WEBKIT_REV", dictSet "webkit_rev" git_hash deps_vars)
    else (git_hash, deps_vars)
  if dep = "src/third_party/angle" ∧ st1.1 ≠ "" then
    ("VAR_ANGLE_REVISION", dictSet "angle_revision" (st1.1.drop 1) st1.2)
  else st1

/-- State threaded through the second loop of ConvertDepsToGit. -/
structure ConvState where
  new_deps : List (Option String × Option String)
  bad : List String
  deps_vars : List (String × String)
deriving DecidableEq, Repr

/-- Embedding of the second per-entry block of deps2git.ConvertDepsToGit
(lines 180-236): optional verification with backoff recording failed
URLs, hash computation, special case rewriting and assembly of the new
location string (a None URL prints as the text None, as the Python
percent-s formatting does). -/
def processJob (opts : Options) (ping : String → Nat → Bool)
    (search : String → String → String → Except String String)
    (deps_overrides svn_deps_vars : List (String × String))
    (st : ConvState) (entry : String × Job) : Except String ConvState := do
  let dep := entry.1
  let job := entry.2
  let st ←
    if opts.verify then
      match job.git_url with
      | none => Except.error "TypeError: Ping called with None url"
      | some gu =>
        if (verifyAttempts (ping gu)).1 then Except.ok st
        else Except.ok { st with bad := if gu ∈ st.bad then st.bad else st.bad ++ [gu] }
    else Except.ok st
  let gh ← computeGitHash search opts deps_overrides svn_deps_vars dep job st.deps_vars
  let sc := specialCaseVars dep job.dep_rev gh.1 gh.2
  .ok { st with
        new_deps := dictSet job.path (some (pyStrOpt job.git_url ++ sc.1)) st.new_deps,
        deps_vars := sc.2 }

/-- The whole second loop over the collected jobs, in order. -/
def processJobs (opts : Options) (ping : String → Nat → Bool)
    (search : String → String → String → Except String String)
    (deps_overrides svn_deps_vars : List (String × String)) :
    List (String × Job) → ConvState → Except String ConvState
  | [], st => .ok st
  | j :: rest, st => do
      let st2 ← processJob opts ping search deps_overrides svn_deps_vars st j
      processJobs opts ping search deps_overrides svn_deps_vars rest st2

/-- The value produced by one ConvertDepsToGit call: the translated
entries, the URLs that failed verification, and the updated variable
set (the Python function mutates the shared deps_vars dictionary). -/
structure ConvertResult where
  new_deps : List (Option String × Option String)
  bad_git_urls : List String
  deps_vars : List (String × String)
deriving DecidableEq, Repr

/-- Embedding of deps2git.ConvertDepsToGit (deps2git.py lines 108-238).
The cache pre-population pass (lines 148-177) only clones repositories in
worker threads and prints progress; it mutates no conversion state, so
it contributes nothing to the result model. -/
def ConvertDepsToGit (opts : Options) (ping : String → Nat → Bool)
    (search : String → String → String → Except String String)
    (deps : List (String × Option String)) (deps_vars svn_deps_vars : List (String × String))
    (svn_to_git_objs : List Conv) (deps_overrides : List (String × String)) :
    Except String ConvertResult := do
  let bj ← buildJobs svn_to_git_objs deps ⟨[], []⟩
  let st ← processJobs opts ping search deps_overrides svn_deps_vars bj.jobs
             ⟨bj.new_deps, [], deps_vars⟩
  .ok ⟨st.new_deps, st.bad, st.deps_vars⟩

/-! ## deps2git.main after the DEPS file has been read -/

/-- The git server URL main puts into deps_vars (deps2git.py line 289). -/
def main_git_url : String := "https://chromium.googlesource.com"

/-- The initial deps_vars of main (deps2git.py lines 290-293). -/
def mainDepsVars : List (String × String) :=
  [("git_url", main_git_url), ("webkit_url", main_git_url ++ "/chromium/blink.git")]

/-- The rule module list of main (deps2git.py lines 296-303): the public
module, with an extra rules module inserted in front when given. -/
def mainConverters (extra : Option Conv) : List Conv :=
  match extra with
  | none => [svn_to_git_public.SvnUrlToGitUrl]
  | some e => [e, svn_to_git_public.SvnUrlToGitUrl]

/-- The override map of main (deps2git.py lines 297-305): the public
map updated with the extra module map, extra entries winning. -/
def mainOverrides (extraOverrides : List (String × String)) : List (String × String) :=
  dictUpdate svn_to_git_public.DEPS_OVERRIDES extraOverrides

/-- Union of two failed URL sets, keeping first occurrences. -/
def unionBad (a b : List String) : List String :=
  b.foldl (fun acc x => if x ∈ acc then acc else acc ++ [x]) a

/-- Conversion of every OS partition (deps2git.py lines 333-337),
threading the shared deps_vars through the calls and accumulating the
failed URL set. -/
def convertOsAll (opts : Options) (ping : String → Nat → Bool)
    (search : String → String → String → Except String String)
    (objs : List Conv) (ov svn_deps_vars : List (String × String)) :
    List (String × List (String × Option String)) → List (String × String) →
    Except String
      (List (String × List (Option String × Option String)) × List String × List (String × String))
  | [], dv => .ok ([], [], dv)
  | (osName, osDeps) :: rest, dv => do
      let r ← ConvertDepsToGit opts ping search osDeps dv svn_deps_vars objs ov
      let rec2 ← convertOsAll opts ping search objs ov svn_deps_vars rest r.deps_vars
      .ok ((osName, r.new_deps) :: rec2.1, unionBad r.bad_git_urls rec2.2.1, rec2.2.2)

/-- The observable outcome of a main run: the process exit status, and
whether WriteDeps ran (an output manifest file was produced). -/
structure MainOutcome where
  exit : Nat
  wroteDeps : Bool
  baddeps : List String
deriving DecidableEq, Repr

/-- Embedding of deps2git.main from line 287 on, once the six sections
have been obtained: build deps_vars, the rule modules and the override
map, convert the default partition and then every OS partition, and
either report the failed URLs with exit status 2 (no manifest written),
or exit 0 without writing when verification was requested, or write the
manifest via WriteDeps and exit 0.  A conversion exception unwinds as
Except.error, in which case nothing is written.  The optional json
report (lines 339-341) is plain output of the failed set and is covered
by the baddeps field. -/
def mainAfterParse (opts : Options) (ping : String → Nat → Bool)
    (search : String → String → String → Except String String)
    (extra : Option Conv) (extraOverrides : List (String × String))
    (deps : List (String × Option String))
    (deps_os : List (String × List (String × Option String)))
    (svn_deps_vars : List (String × String)) : Except String MainOutcome := do
  let objs := mainConverters extra
  let ov := mainOverrides extraOverrides
  let r ← ConvertDepsToGit opts ping search deps mainDepsVars svn_deps_vars objs ov
  let ros ← convertOsAll opts ping search objs ov svn_deps_vars deps_os r.deps_vars
  let baddeps := unionBad r.bad_git_urls ros.2.1
  if baddeps ≠ [] then
    .ok ⟨2, false, baddeps⟩
  else if opts.verify then
    .ok ⟨0, false, baddeps⟩
  else
    .ok ⟨0, true, baddeps⟩

/-- Embedding of the parse phase of main (deps2git.py lines 265-268)
composed with the rest of main: GetDepsContent hands back a five element
tuple which main destructures into six names, so this function always
fails before any conversion happens (see the claim about the section
count). -/
def mainFull (opts : Options) (ping : String → Nat → Bool)
    (search : String → String → String → Except String String)
    (extra : Option Conv) (extraOverrides : List (String × String))
    (scope : deps_utils.DepsFileScope) : Except String MainOutcome := do
  let t ← deps_utils.unpack6 (deps_utils.GetDepsContent scope)
  match t with
  | (.depsDict d, .osDict dos, _, _, _, _) =>
      mainAfterParse opts ping search extra extraOverrides d dos []
  | _ => .error "TypeError: unexpected section value"

/-! ## Reading back the generated manifest (claim C7)

GetDepsContent re-reads a written manifest by executing it; in the deps
block of a file produced by WriteDeps, every value is either a quoted
string literal or a concatenation of at most two terms joined by plus,
each term a quoted literal or a Var(name) reference that the VarImpl
callback resolves in the vars mapping.  The whole evaluation of that
block is embedded below as an executable parser over the given variable
mapping. -/

/-- Parse a quoted literal at the front, returning the text and the rest. -/
def parseQuoted (t : List Char) : Option (String × List Char) :=
  match t with
  | c :: rest =>
    if c = sq then
      let lit := rest.takeWhile (· ≠ sq)
      match rest.drop lit.length with
      | c2 :: rest3 => if c2 = sq then some (String.mk lit, rest3) else none
      | [] => none
    else none
  | [] => none

/-- Parse one term: a Var(name) reference resolved through the variable
mapping, or a quoted literal. -/
def parseTerm (vars : List (String × String)) (t : List Char) : Option (String × List Char) :=
  if "Var(".data.isPrefixOf t then
    match parseQuoted (t.drop 4) with
    | some (name, rest) =>
      match rest with
      | ')' :: rest2 =>
        match dictGet name vars with
        | some v => some (v, rest2)
        | none => none
      | _ => none
    | none => none
  else parseQuoted t

/-- Parse a value expression of at most two terms joined by plus (the
only shapes the writer emits). -/
def parseExpr (vars : List (String × String)) (t : List Char) : Option (String × List Char) :=
  match parseTerm vars t with
  | none => none
  | some (v, rest) =>
    if " + ".data.isPrefixOf rest then
      match parseTerm vars (rest.drop 3) with
      | none => none
      | some (v2, rest2) =>
        if " + ".data.isPrefixOf rest2 then none else some (v ++ v2, rest2)
    else some (v, rest)

/-- Parse the entry lines of the deps block: pairs of a key line (four
spaces, quoted key, colon) and a value line (eight spaces, expression,
comma), closed by the line holding the closing brace. -/
def parseEntries (vars : List (String × String)) :
    List (List Char) → Option (List (String × String))
  | [l] => if l = rbr.data then some [] else none
  | kl :: vl :: rest =>
    if "    ".data.isPrefixOf kl then
      match parseQuoted (kl.drop 4) with
      | some (k, kr) =>
        if kr = [':'] then
          if "        ".data.isPrefixOf vl then
            match parseExpr vars (vl.drop 8) with
            | some (v, vr) =>
              if vr = [','] then
                match parseEntries vars rest with
                | some tl => some ((k, v) :: tl)
                | none => none
              else none
            | none => none
          else none
        else none
      | none => none
    else none
  | _ => none

/-- Evaluate a written deps block with the given variable mapping: split
into lines, expect the open brace line, parse the entries. -/
def parseDepsBlock (vars : List (String × String)) (s : String) :
    Option (List (String × String)) :=
  match pySplit '\n' s.data with
  | first :: rest => if first = lbr.data then parseEntries vars rest else none
  | [] => none

/-! ## Character level view of the serialized deps block (claim C7) -/

/-- Characters that may appear in dependency keys and in URL suffixes for
the amended round trip claim: lower case letters, digits, and the URL
punctuation slash, dot, underscore, dash and at-sign.  All of the
characters the Varify patterns hinge on (quote, colon, space, newline,
upper case letters, parentheses, plus, comma, braces) are excluded. -/
def safeChar (c : Char) : Bool :=
  c.isLower || c.isDigit || c = '/' || c = '.' || c = '_' || c = '-' || c = '@'

/-- Open brace character. -/
def obrace : Char := Char.ofNat 123

/-- Close brace character. -/
def cbrace : Char := Char.ofNat 125

/-- The unquoted git server host, as characters. -/
def hostChars : List Char := "http://git.chromium.org".data

/-- Four spaces of key line indentation. -/
def sp4c : List Char := "    ".data

/-- Eight spaces of value line indentation. -/
def sp8c : List Char := "        ".data

/-- A key line of the pretty printed deps block, without its newline. -/
def keylineChars (k : List Char) : List Char := sp4c ++ sq :: (k ++ [sq, ':'])

/-- A value line before Varify, without its newline. -/
def vallineChars (sfx : List Char) : List Char :=
  sp8c ++ sq :: (hostChars ++ sfx ++ [sq, ','])

/-- A value line after Varify replaced the quoted host by the git_url
variable reference. -/
def valline2Chars (sfx : List Char) : List Char :=
  sp8c ++ deps_utils.gitUrlVar.data ++ sfx ++ [sq, ',']

/-- One serialized entry before Varify. -/
def entryChars (k sfx : List Char) : List Char :=
  keylineChars k ++ '\n' :: (vallineChars sfx ++ ['\n'])

/-- One serialized entry after Varify. -/
def entry2Chars (k sfx : List Char) : List Char :=
  keylineChars k ++ '\n' :: (valline2Chars sfx ++ ['\n'])

/-- The whole serialized deps block before Varify. -/
def serializedChars (ps : List (List Char × List Char)) : List Char :=
  obrace :: '\n' :: ((ps.map fun p => entryChars p.1 p.2).flatten ++ [cbrace])

/-- The whole serialized deps block after Varify. -/
def varifiedChars (ps : List (List Char × List Char)) : List Char :=
  obrace :: '\n' :: ((ps.map fun p => entry2Chars p.1 p.2).flatten ++ [cbrace])

/-- The textual reverse substitution of the amended round trip claim:
put the replaced literals back in place of the variable references
introduced by Varify. -/
def devarify (s : String) : String :=
  let d1 := pyReplace s deps_utils.gitUrlVar deps_utils.gitHostPat
  let d2 := pyReplace d1 deps_utils.webkitRevVar deps_utils.webkitRevPat
  pyReplace d2 deps_utils.webkitUrlVar deps_utils.webkitTrimmedPat

/-- A manifest whose every location is the git server host followed by a
suffix (the shape produced by the public conversion rules). -/
def mkHostDeps (es : List (String × String)) : List (String × Option String) :=
  es.map (fun e => (e.1, some ("http://git.chromium.org" ++ e.2)))

/-- Insertion step for sorting key suffix pairs by key. -/
def insertPair (e : String × String) : List (String × String) → List (String × String)
  | [] => [e]
  | e2 :: rest => if e.1 < e2.1 then e :: e2 :: rest else e2 :: insertPair e rest

/-- Sorting key suffix pairs by key, mirroring deps_utils.sortByKey. -/
def sortPairs (l : List (String × String)) : List (String × String) :=
  l.foldr insertPair []

/-- The characters of the git_url variable reference, written out. -/
def q2chars : List Char :=
  'V' :: 'a' :: 'r' :: '(' :: sq :: 'g' :: 'i' :: 't' :: '_' :: 'u' :: 'r' :: 'l' ::
    sq :: ')' :: ' ' :: '+' :: ' ' :: sq :: []

/-- The tail of q2chars after its leading capital V. -/
def q2tail : List Char :=
  'a' :: 'r' :: '(' :: sq :: 'g' :: 'i' :: 't' :: '_' :: 'u' :: 'r' :: 'l' ::
    sq :: ')' :: ' ' :: '+' :: ' ' :: sq :: []

/-- The concrete characters an entry of the serialized block can contain
besides its key and its suffix. -/
def entryConcrete : List Char := sp4c ++ [sq, ':', '\n', ','] ++ sp8c ++ hostChars

/-- The concrete characters a varified entry can contain besides its key
and its suffix. -/
def entry2Concrete : List Char := sp4c ++ [sq, ':', '\n', ','] ++ sp8c ++ q2chars

/-! ## Shared concrete fixtures for the theorems below -/

/-- Options of a dry run: no repository directory anywhere and no
verification (deps2git falls into the xxx-r branch of SvnRevToGitHash). -/
def dryOpts : Options := ⟨none, none, none, false, false⟩

/-- Dry run options with verification turned on. -/
def verifyOpts : Options := ⟨none, none, none, false, true⟩

/-- A ping oracle that never answers (irrelevant while verification is
off). -/
def pingNone : String → Nat → Bool := fun _ _ => false

/-- A search oracle that always fails (never consulted in the dry runs
below). -/
def searchNone : String → String → String → Except String String :=
  fun _ _ _ => .error "unused"

/-- The rule modules of a run without extra rules. -/
def pubObjs : List Conv := [svn_to_git_public.SvnUrlToGitUrl]

/-- A ping oracle under which only the good example URL answers. -/
def pingGoodB : String → Nat → Bool := fun u _ => u = "https://good.example/b.git"

/-- A ping oracle under which every URL answers at once. -/
def pingAll : String → Nat → Bool := fun _ _ => true

/-! # Theorems -/

theorem except_bind_ok {ε α β : Type} (a : α) (f : α → Except ε β) :
    (Except.ok a >>= f) = f a := rfl

theorem except_bind_error {ε α β : Type} (e : ε) (f : α → Except ε β) :
    ((Except.error e : Except ε α) >>= f) = Except.error e := rfl

/-! ### Lemmas about pySplit -/

theorem pySplit_ne_nil (sep : Char) (s : List Char) : pySplit sep s ≠ [] := by
  cases s with
  | nil => simp [pySplit]
  | cons c cs =>
    simp only [pySplit]
    by_cases hc : c = sep <;> simp [hc]

theorem pySplit_length (sep : Char) (s : List Char) :
    (pySplit sep s).length = s.count sep + 1 := by
  induction s with
  | nil => simp [pySplit]
  | cons c cs ih =>
    rcases h : pySplit sep cs with _ | ⟨hd, tl⟩
    · exact absurd h (pySplit_ne_nil sep cs)
    · rw [h] at ih
      simp only [pySplit, h]
      by_cases hc : c = sep
      · subst hc
        rw [if_pos rfl, List.count_cons_self]
        simp only [List.length_cons] at ih ⊢
        omega
      · rw [if_neg hc, List.count_cons_of_ne (Ne.symm hc)]
        simp only [List.headD_cons, List.tail_cons, List.length_cons]
        simp only [List.length_cons] at ih
        omega

theorem pySplit_head (sep : Char) (s : List Char) :
    (pySplit sep s).headD [] = s.takeWhile (· ≠ sep) := by
  induction s with
  | nil => simp [pySplit]
  | cons c cs ih =>
    rcases h : pySplit sep cs with _ | ⟨hd, tl⟩
    · exact absurd h (pySplit_ne_nil sep cs)
    · rw [h] at ih
      simp only [pySplit, h]
      by_cases hc : c = sep
      · subst hc
        simp [List.takeWhile_cons]
      · rw [if_neg hc]
        simp only [List.headD_cons, List.tail_cons] at ih ⊢
        rw [List.takeWhile_cons_of_pos (by simpa using hc), ih]

theorem pySplit_no_sep (sep : Char) (s : List Char) (h : sep ∉ s) :
    pySplit sep s = [s] := by
  induction s with
  | nil => simp [pySplit]
  | cons c cs ih =>
    have hcs : sep ∉ cs := fun hmem => h (List.mem_cons_of_mem c hmem)
    have hc : c ≠ sep := fun hh => h (hh ▸ List.mem_cons_self c cs)
    simp only [pySplit]
    rw [ih hcs]
    simp [hc]

theorem pySplit_append_sep (sep : Char) (a b : List Char) (ha : sep ∉ a) :
    pySplit sep (a ++ sep :: b) = a :: pySplit sep b := by
  induction a with
  | nil =>
    simp [pySplit]
  | cons c cs ih =>
    have hcs : sep ∉ cs := fun hmem => ha (List.mem_cons_of_mem c hmem)
    have hc : c ≠ sep := fun hh => ha (hh ▸ List.mem_cons_self c cs)
    simp only [List.cons_append, pySplit, List.append_eq]
    rw [ih hcs]
    simp [hc]

/-- Claim C10 support: the second component of pySplit when there is
exactly one separator. -/
theorem pySplit_one_sep (sep : Char) (a b : List Char) (ha : sep ∉ a) (hb : sep ∉ b) :
    pySplit sep (a ++ sep :: b) = [a, b] := by
  rw [pySplit_append_sep sep a b ha, pySplit_no_sep sep b hb]

/-- For any list, the element after the head of pySplit, when the split
has exactly two parts, is the remainder after the unique separator. -/
theorem takeWhile_of_no_sep (sep : Char) (s : List Char) (h : sep ∉ s) :
    s.takeWhile (· ≠ sep) = s := by
  induction s with
  | nil => simp
  | cons c cs ih =>
    have hc : c ≠ sep := fun hh => h (hh ▸ List.mem_cons_self c cs)
    have hcs : sep ∉ cs := fun hmem => h (List.mem_cons_of_mem c hmem)
    rw [List.takeWhile_cons_of_pos (by simpa using hc), ih hcs]

/-- Claim C10: SplitScmUrl returns the prefix before the first at-sign as
the URL, and returns the text after the at-sign as the revision exactly
when the location contains a single at-sign; otherwise the revision is the
HEAD sentinel. -/
theorem splitScmUrl_spec (url : String) :
    SplitScmUrl url =
      (String.mk (url.data.takeWhile (· ≠ '@')),
       if url.data.count '@' = 1 then
         String.mk ((url.data.dropWhile (· ≠ '@')).drop 1)
       else "HEAD") := by
  simp only [SplitScmUrl]
  rw [pySplit_head]
  congr 1
  by_cases h1 : url.data.count '@' = 1
  · have hlen : (pySplit '@' url.data).length = 2 := by
      rw [pySplit_length, h1]
    rw [if_pos hlen, if_pos h1]
    -- with exactly one separator the list splits as a ++ '@' :: b
    have hmem : '@' ∈ url.data := by
      by_contra hno
      rw [List.count_eq_zero_of_not_mem hno] at h1
      exact absurd h1 (by decide)
    obtain ⟨a, b, hab, hna⟩ :
        ∃ a b, url.data = a ++ '@' :: b ∧ '@' ∉ a := by
      refine ⟨url.data.takeWhile (· ≠ '@'), (url.data.dropWhile (· ≠ '@')).drop 1, ?_, ?_⟩
      · have hd : url.data.dropWhile (· ≠ '@') ≠ [] := by
          intro hnil
          have := List.takeWhile_append_dropWhile (p := (· ≠ '@')) (l := url.data)
          rw [hnil, List.append_nil] at this
          rw [← this] at hmem
          have := List.mem_takeWhile_imp hmem
          simp at this
        have hhd : (url.data.dropWhile (· ≠ '@')).head hd = '@' := by
          have := List.head_dropWhile_not (p := (· ≠ '@')) (l := url.data) hd
          simpa using this
        conv_lhs => rw [← List.takeWhile_append_dropWhile (p := (· ≠ '@')) (l := url.data)]
        congr 1
        conv_lhs => rw [← List.head_cons_tail _ hd]
        rw [hhd]
        simp [List.drop_one]
      · intro hmem2
        have := List.mem_takeWhile_imp hmem2
        simp at this
    have hnb : '@' ∉ b := by
      have hcount := h1
      rw [hab] at hcount
      rw [List.count_append, List.count_cons_self] at hcount
      have hca : a.count '@' = 0 := List.count_eq_zero_of_not_mem hna
      rw [hca] at hcount
      simp at hcount
      exact List.count_eq_zero.mp hcount
    rw [hab, pySplit_one_sep '@' a b hna hnb]
    have hdwa : a.dropWhile (· ≠ '@') = [] := by
      rw [List.dropWhile_eq_nil_iff]
      intro x hx
      have hxne : x ≠ '@' := fun hh => hna (hh ▸ hx)
      simpa using hxne
    have htw : (a ++ '@' :: b).dropWhile (· ≠ '@') = '@' :: b := by
      rw [List.dropWhile_append, hdwa]
      simp [List.dropWhile_cons]
    rw [htw]
    simp
  · have hlen : (pySplit '@' url.data).length ≠ 2 := by
      rw [pySplit_length]
      omega
    rw [if_neg hlen, if_neg h1]


/-! ## Claim C1 -/

/-- Claim C1: for a dependency whose legacy URL does not already end in
.git, the conversion tries the rule modules in order and uses the result
of the first module returning a truthy (non empty) match: with any prefix
of non matching modules the first matching module decides the result, and
with the module list built by main from an extra rules module, a matching
extra module decides the result regardless of what the base public module
would return. -/
theorem claim_C1_override_rule_precedence
    (pre : List Conv) (o : Conv) (post : List Conv) (e : Conv) (dep url : String)
    (hpre : ∀ p ∈ pre, tr (p dep url) = false) (ho : tr (o dep url) = true)
    (he : tr (e dep url) = true) :
    selectConverted dep url (pre ++ o :: post) = o dep url ∧
    selectConverted dep url (mainConverters (some e)) = e dep url ∧
    selectConverted dep url (mainConverters (some e)) = selectConverted dep url [e] := by
  refine ⟨?_, ?_, ?_⟩
  · induction pre with
    | nil => simp [selectConverted, ho]
    | cons p ps ih =>
      have hp := hpre p (List.mem_cons_self p ps)
      have hps : ∀ q ∈ ps, tr (q dep url) = false :=
        fun q hq => hpre q (List.mem_cons_of_mem p hq)
      simp [selectConverted, hp, ih hps]
  · simp [mainConverters, selectConverted, he]
  · simp [mainConverters, selectConverted, he]

/-- Witness for claim C1 at a concrete extra module placed in front of
the public module. -/
theorem claim_C1_witness :
    selectConverted "src/d" "/u"
        ([] ++ (fun _ _ => some [some "a", some "b", some "c"]) ::
          [svn_to_git_public.SvnUrlToGitUrl]) =
      some [some "a", some "b", some "c"] ∧
    selectConverted "src/d" "/u"
        (mainConverters (some (fun _ _ => some [some "a", some "b", some "c"]))) =
      some [some "a", some "b", some "c"] ∧
    selectConverted "src/d" "/u"
        (mainConverters (some (fun _ _ => some [some "a", some "b", some "c"]))) =
      selectConverted "src/d" "/u" [fun _ _ => some [some "a", some "b", some "c"]] :=
  claim_C1_override_rule_precedence [] _ [svn_to_git_public.SvnUrlToGitUrl] _ "src/d" "/u"
    (by simp) rfl rfl

/-! ## Claim C3 -/

/-- Claim C3 (code bug): the exclusion rule does fire for the reference
build chrome dependency, returning the explicit exclusion pair of None,
but the conversion loop unpacks the kept tuple into three names, so the
two element exclusion pair raises ValueError instead of being dropped:
no translated output is produced at all. -/
theorem claim_C3_exclusion_unpack_valueerror :
    svn_to_git_public.SvnUrlToGitUrl "src/chrome/test/data/reference_build/chrome"
        "/trunk/deps/reference_builds/chrome" = some [none, none] ∧
    ConvertDepsToGit dryOpts pingNone searchNone
        [("src/chrome/test/data/reference_build/chrome",
          some "/trunk/deps/reference_builds/chrome@100")]
        mainDepsVars [] pubObjs svn_to_git_public.DEPS_OVERRIDES =
      .error "ValueError: need more than 2 values to unpack" :=
  ⟨by decide, by decide⟩

/-! ## Claim C4 -/

/-- Claim C4 (code bug): on the override path, a missing DEPS variable is
fatal with the documented message; but when the variable is present the
marker token step reads VARIFY_MARKER_TAG_PREFIX from deps_utils, which
that module does not define, so the run dies with AttributeError instead
of emitting the marker token. -/
theorem claim_C4_override_marker_attribute_error :
    ConvertDepsToGit dryOpts pingNone searchNone
        [("src/third_party/ffmpeg", some "https://x.test/ffmpeg.git@500")]
        mainDepsVars [("ffmpeg_hash", "@abc123")] pubObjs svn_to_git_public.DEPS_OVERRIDES =
      .error ("AttributeError: " ++ sqs ++ "module" ++ sqs ++
        " object has no attribute " ++ sqs ++ "VARIFY_MARKER_TAG_PREFIX" ++ sqs) ∧
    ConvertDepsToGit dryOpts pingNone searchNone
        [("src/third_party/ffmpeg", some "https://x.test/ffmpeg.git@500")]
        mainDepsVars [] pubObjs svn_to_git_public.DEPS_OVERRIDES =
      .error "Missing DEPS variable: ffmpeg_hash" :=
  ⟨by decide, by decide⟩

/-! ## Claim C9 -/

/-- Claim C9: GetDepsContent returns exactly the five sections deps,
deps_os, include_rules, skip_child_includes and hooks, each defaulted to
an empty container when the file omits it, independently of any legacy
variable section, and returns no sixth element; the destructuring into
six names performed by main therefore raises ValueError, so the composed
main run always fails at the parse step. -/
theorem claim_C9_five_sections_six_names (scope : deps_utils.DepsFileScope) :
    (deps_utils.GetDepsContent scope).length = 5 ∧
    deps_utils.GetDepsContent scope =
      [ .depsDict (scope.deps.getD []),
        .osDict (scope.deps_os.getD []),
        .strList (scope.include_rules.getD []),
        .strList (scope.skip_child_includes.getD []),
        .hookList (scope.hooks.getD []) ] ∧
    (∀ v, deps_utils.GetDepsContent { scope with vars := v } =
      deps_utils.GetDepsContent scope) ∧
    deps_utils.valueErrorNeedMore 5 = "ValueError: need more than 5 values to unpack" ∧
    deps_utils.unpack6 (deps_utils.GetDepsContent scope) =
      .error (deps_utils.valueErrorNeedMore 5) ∧
    (∀ opts ping search extra extraOv,
      mainFull opts ping search extra extraOv scope =
        .error (deps_utils.valueErrorNeedMore 5)) := by
  refine ⟨rfl, rfl, fun v => rfl, by decide, rfl, fun opts ping search extra extraOv => rfl⟩

/-! ## Claim C2 -/

/-- The first conversion loop distributes over list append. -/
theorem buildJobs_append (objs : List Conv) (pre rest : List (String × Option String))
    (s : BJState) :
    buildJobs objs (pre ++ rest) s =
      match buildJobs objs pre s with
      | .ok s2 => buildJobs objs rest s2
      | .error e => .error e := by
  induction pre generalizing s with
  | nil => simp [buildJobs]
  | cons kv pr ih =>
    obtain ⟨dep, du⟩ := kv
    simp only [List.cons_append, buildJobs]
    cases h : buildOne objs dep du s with
    | ok s2 => simp [h, except_bind_ok, ih]
    | error e => simp [h, except_bind_error]

/-- Claim C2: when some dependency location splits into a URL that does
not end in .git and no configured rule module matches it, the conversion
raises the fatal no-match exception naming that URL, and the main run
aborts with that exception, never reaching the WriteDeps call (an error
outcome carries no written manifest by construction of mainAfterParse). -/
theorem claim_C2_unmatched_url_fatal
    (opts : Options) (ping : String → Nat → Bool)
    (search : String → String → String → Except String String)
    (extra : Option Conv) (extraOv sv dv : List (String × String))
    (pre post : List (String × Option String)) (dep loc u r : String)
    (deps_os : List (String × List (String × Option String)))
    (s0 : BJState)
    (hloc : loc ≠ "")
    (hsplit : SplitScmUrl loc = (u, r))
    (hgit : pyEndsWith u ".git" = false)
    (hnomatch : selectConverted dep u (mainConverters extra) = none)
    (hpre : buildJobs (mainConverters extra) pre ⟨[], []⟩ = .ok s0) :
    ConvertDepsToGit opts ping search (pre ++ (dep, some loc) :: post) dv sv
        (mainConverters extra) (mainOverrides extraOv) =
      .error ("No match found for " ++ u) ∧
    mainAfterParse opts ping search extra extraOv (pre ++ (dep, some loc) :: post) deps_os sv =
      .error ("No match found for " ++ u) := by
  have ht : pyTruthyOptStr (some loc) = true := by simp [pyTruthyOptStr, hloc]
  have hone : ∀ s1 : BJState, buildOne (mainConverters extra) dep (some loc) s1 =
      .error ("No match found for " ++ u) := by
    intro s1
    simp [buildOne, ht, hsplit, hgit, hnomatch]
  have hja : buildJobs (mainConverters extra) (pre ++ (dep, some loc) :: post) ⟨[], []⟩ =
      .error ("No match found for " ++ u) := by
    rw [buildJobs_append, hpre]
    simp [buildJobs, hone, except_bind_error]
  constructor
  · simp [ConvertDepsToGit, hja, except_bind_error]
  · simp [mainAfterParse, ConvertDepsToGit, hja, except_bind_error]

/-- Witness for claim C2 at a URL no rule matches. -/
theorem claim_C2_witness :
    ConvertDepsToGit dryOpts pingNone searchNone
        ([] ++ ("src/x", some "svn://unknown.example/foo@5") :: []) mainDepsVars []
        (mainConverters none) (mainOverrides []) =
      .error ("No match found for " ++ "svn://unknown.example/foo") ∧
    mainAfterParse dryOpts pingNone searchNone none []
        ([] ++ ("src/x", some "svn://unknown.example/foo@5") :: []) [] [] =
      .error ("No match found for " ++ "svn://unknown.example/foo") :=
  claim_C2_unmatched_url_fatal dryOpts pingNone searchNone none [] [] mainDepsVars
    [] [] "src/x" "svn://unknown.example/foo@5" "svn://unknown.example/foo" "5" []
    ⟨[], []⟩ (by decide) (by decide) (by decide) (by decide) (by decide)

/-! ## Claim C5 -/

/-- Claim C5 counterexample: a WebKit dependency pinned at the latest
sentinel (no revision suffix, so the split yields HEAD) still gets the
special case rewriting: the revision variable is emitted (holding the
empty hash) and the marker is appended to the location, although the
claim says the rewriting applies only when the marker is not the latest
sentinel. -/
theorem claim_C5_webkit_latest_counterexample :
    (SplitScmUrl "https://x.test/wk.git").2 = "HEAD" ∧
    specialCaseVars "src/third_party/WebKit" "HEAD" "" [] =
      ("VAR_WEBKIT_REV", [("webkit_rev", "")]) ∧
    ConvertDepsToGit dryOpts pingNone searchNone
        [("src/third_party/WebKit", some "https://x.test/wk.git")]
        mainDepsVars [] pubObjs svn_to_git_public.DEPS_OVERRIDES =
      .ok ⟨[(some "src/third_party/WebKit", some "https://x.test/wk.gitVAR_WEBKIT_REV")], [],
           [("git_url", "https://chromium.googlesource.com"),
            ("webkit_url", "https://chromium.googlesource.com/chromium/blink.git"),
            ("webkit_rev", "")]⟩ :=
  ⟨by decide, by decide, by decide⟩

/-- Claim C5 amended: the special case rewriting is purely path keyed and
stores the hash under the well known variable instead of inlining it; for
the WebKit path it applies exactly when the split revision string is non
empty — which includes the HEAD latest sentinel — and for the angle path
exactly when the computed hash is non empty, which coincides with the
revision marker not being the latest sentinel because the hash
computation returns the empty string exactly for HEAD. -/
theorem claim_C5_special_case_amended (rev gh : String) (dv : List (String × String)) :
    (rev ≠ "" → specialCaseVars "src/third_party/WebKit" rev gh dv =
        ("VAR_WEBKIT_REV", dictSet "webkit_rev" gh dv)) ∧
    specialCaseVars "src/third_party/WebKit" "" gh dv = (gh, dv) ∧
    (gh ≠ "" → specialCaseVars "src/third_party/angle" rev gh dv =
        ("VAR_ANGLE_REVISION", dictSet "angle_revision" (gh.drop 1) dv)) ∧
    specialCaseVars "src/third_party/angle" rev "" dv = ("", dv) ∧
    (∀ dep : String, dep ≠ "src/third_party/WebKit" → dep ≠ "src/third_party/angle" →
      specialCaseVars dep rev gh dv = (gh, dv)) ∧
    (∀ (search : String → String → String → Except String String) (opts : Options)
        (ov sv : List (String × String)) (dep : String) (job : Job),
      job.dep_rev = "HEAD" → computeGitHash search opts ov sv dep job dv = .ok ("", dv)) := by
  refine ⟨?_, ?_, ?_, ?_, ?_, ?_⟩
  · intro hrev
    simp [specialCaseVars, hrev]
  · simp [specialCaseVars]
  · intro hgh
    simp [specialCaseVars, hgh]
  · simp [specialCaseVars]
  · intro dep h1 h2
    simp [specialCaseVars, h1, h2]
  · intro search opts ov sv dep job hrev
    simp [computeGitHash, hrev]

/-- Witness for the amended claim C5 at concrete inputs. -/
theorem claim_C5_amended_witness :
    specialCaseVars "src/third_party/WebKit" "500" "@abc" [] =
      ("VAR_WEBKIT_REV", [("webkit_rev", "@abc")]) ∧
    specialCaseVars "src/third_party/angle" "500" "@abc" [] =
      ("VAR_ANGLE_REVISION", [("angle_revision", "abc")]) ∧
    specialCaseVars "src/foo" "500" "@abc" [] = ("@abc", []) :=
  ⟨(claim_C5_special_case_amended "500" "@abc" []).1 (by decide),
   (claim_C5_special_case_amended "500" "@abc" []).2.2.1 (by decide),
   (claim_C5_special_case_amended "500" "@abc" []).2.2.2.2.1 "src/foo" (by decide) (by decide)⟩

/-! ## Claim C6 -/

/-- Claim C6: a verification ping is retried up to five times with sleeps
of half a second doubling after each failed attempt; a URL failing all
five attempts lands in the failed set while every entry is still
converted; a non empty failed set turns the run exit status into 2, and
with all URLs reachable the status is 0. -/
theorem claim_C6_verify_backoff_and_exit :
    (∀ p : Nat → Bool, (∀ i, p i = false) →
      verifyAttempts p = (false, [1/2, 1, 2, 4, 8])) ∧
    verifyAttempts (pingGoodB "https://bad.example/a.git") = (false, [1/2, 1, 2, 4, 8]) ∧
    ConvertDepsToGit verifyOpts pingGoodB searchNone
        [("src/a", some "https://bad.example/a.git"),
         ("src/b", some "https://good.example/b.git")]
        mainDepsVars [] pubObjs svn_to_git_public.DEPS_OVERRIDES =
      .ok ⟨[(some "src/a", some "https://bad.example/a.git"),
            (some "src/b", some "https://good.example/b.git")],
           ["https://bad.example/a.git"], mainDepsVars⟩ ∧
    mainAfterParse verifyOpts pingGoodB searchNone none []
        [("src/a", some "https://bad.example/a.git"),
         ("src/b", some "https://good.example/b.git")] [] [] =
      .ok ⟨2, false, ["https://bad.example/a.git"]⟩ ∧
    mainAfterParse verifyOpts pingAll searchNone none []
        [("src/a", some "https://bad.example/a.git"),
         ("src/b", some "https://good.example/b.git")] [] [] =
      .ok ⟨0, false, []⟩ := by
  have hall : ∀ p : Nat → Bool, (∀ i, p i = false) →
      verifyAttempts p = (false, [1/2, 1, 2, 4, 8]) := by
    intro p hp
    norm_num [verifyAttempts, verifyGo, hp]
  refine ⟨hall, hall _ (fun i => rfl), by decide, by decide, by decide⟩

/-- Witness for claim C6 at a concrete always failing ping oracle. -/
theorem claim_C6_witness :
    verifyAttempts (fun _ => false) = (false, [1/2, 1, 2, 4, 8]) :=
  claim_C6_verify_backoff_and_exit.1 (fun _ => false) (fun _ => rfl)

/-! ## Claim C8 -/

/-- Claim C8 counterexample: an entry whose URL ends in .git does bypass
rule matching, but when its path is one of the special case paths the
revision is not passed through: the WebKit path with a concrete revision
marker is rewritten to the VAR_WEBKIT_REV marker, so the input location
is not reproduced unchanged. -/
theorem claim_C8_passthrough_counterexample :
    pyEndsWith "https://example.com/repo.git" ".git" = true ∧
    ConvertDepsToGit dryOpts pingNone searchNone
        [("src/third_party/WebKit", some "https://example.com/repo.git@deadbeef")]
        mainDepsVars [] pubObjs svn_to_git_public.DEPS_OVERRIDES =
      .ok ⟨[(some "src/third_party/WebKit",
             some "https://example.com/repo.gitVAR_WEBKIT_REV")], [],
           [("git_url", "https://chromium.googlesource.com"),
            ("webkit_url", "https://chromium.googlesource.com/chromium/blink.git"),
            ("webkit_rev", "@deadbeef")]⟩ ∧
    (some "https://example.com/repo.gitVAR_WEBKIT_REV" : Option String) ≠
      some "https://example.com/repo.git@deadbeef" :=
  ⟨by decide, by decide, by decide⟩

/-- SplitScmUrl on a location with exactly one at-sign. -/
theorem splitScmUrl_append (u rev : String) (hu : '@' ∉ u.data) (hr : '@' ∉ rev.data) :
    SplitScmUrl (u ++ "@" ++ rev) = (u, rev) := by
  have hdata : (u ++ "@" ++ rev).data = u.data ++ '@' :: rev.data := by
    simp [String.data_append]
  simp only [SplitScmUrl, hdata, pySplit_one_sep '@' _ _ hu hr]
  simp

/-- Claim C8 amended: an entry whose URL already ends in .git bypasses
rule matching with the URL as its own host, and a non latest revision
marker is passed through unresolved — provided the path is not in the
override map and is neither of the two special case paths — so the input
location is reproduced unchanged for any rule module list. -/
theorem claim_C8_git_passthrough_amended
    (objs : List Conv) (ov sv dv : List (String × String))
    (search : String → String → String → Except String String)
    (dep u rev : String)
    (hu : pyEndsWith u ".git" = true)
    (hua : '@' ∉ u.data) (hra : '@' ∉ rev.data)
    (hov : dictGet dep ov = none)
    (hw : dep ≠ "src/third_party/WebKit") (ha : dep ≠ "src/third_party/angle")
    (hrev : rev ≠ "HEAD") :
    ConvertDepsToGit dryOpts pingNone search [(dep, some (u ++ "@" ++ rev))] dv sv objs ov =
      .ok ⟨[(some dep, some (u ++ "@" ++ rev))], [], dv⟩ := by
  have hsplit := splitScmUrl_append u rev hua hra
  have hloc : (u ++ "@" ++ rev) ≠ "" := by
    intro h0
    have hd : (u ++ "@" ++ rev).data = u.data ++ '@' :: rev.data := by
      simp [String.data_append]
    rw [h0] at hd
    simp at hd
  have ht : pyTruthyOptStr (some (u ++ "@" ++ rev)) = true := by
    simp [pyTruthyOptStr, hloc]
  have happ : u ++ ("@" ++ rev) = u ++ "@" ++ rev := by
    apply String.ext
    simp [String.data_append]
  have hone : buildOne objs dep (some (u ++ "@" ++ rev)) ⟨[], []⟩ =
      .ok ⟨[], [(dep, ⟨some u, u, some dep, some u, rev, none⟩)]⟩ := by
    simp [buildOne, ht, hsplit, hu]
  have hpj : processJob dryOpts pingNone search ov sv ⟨[], [], dv⟩
      (dep, ⟨some u, u, some dep, some u, rev, none⟩) =
      .ok ⟨[(some dep, some (u ++ "@" ++ rev))], [], dv⟩ := by
    simp [processJob, dryOpts, computeGitHash, hrev, hov, hu, specialCaseVars, hw, ha,
      dictSet, pyStrOpt, except_bind_ok, happ]
  simp [ConvertDepsToGit, buildJobs, hone, except_bind_ok, processJobs, hpj]

/-- Witness for the amended claim C8 at the concrete scenario location. -/
theorem claim_C8_amended_witness :
    ConvertDepsToGit dryOpts pingNone searchNone
        [("src/foo", some ("https://example.com/repo.git" ++ "@" ++ "deadbeef"))]
        mainDepsVars [] pubObjs svn_to_git_public.DEPS_OVERRIDES =
      .ok ⟨[(some "src/foo", some ("https://example.com/repo.git" ++ "@" ++ "deadbeef"))], [],
           mainDepsVars⟩ :=
  claim_C8_git_passthrough_amended pubObjs svn_to_git_public.DEPS_OVERRIDES []
    mainDepsVars searchNone "src/foo" "https://example.com/repo.git" "deadbeef"
    (by decide) (by decide) (by decide) (by decide) (by decide) (by decide) (by decide)

/-! ## Claim C7: replaceAll lemmas -/

theorem replaceAll_nil (pat rep : List Char) : replaceAll pat rep [] = [] := rfl

theorem replaceAllF_fuel_inv (pat rep : List Char) :
    ∀ (f : Nat) (s : List Char), s.length ≤ f → replaceAllF pat rep f s = replaceAll pat rep s := by
  intro f
  induction f using Nat.strong_induction_on with
  | _ f ih =>
    intro s hs
    match f, s with
    | f, [] => cases f <;> rfl
    | 0, c :: cs => simp at hs
    | Nat.succ n, c :: cs =>
      have hcs : cs.length ≤ n := by simpa using hs
      show (if pat ≠ [] ∧ pat.isPrefixOf (c :: cs) then
              rep ++ replaceAllF pat rep n (cs.drop (pat.length - 1))
            else c :: replaceAllF pat rep n cs) =
        replaceAllF pat rep (c :: cs).length (c :: cs)
      rw [show replaceAllF pat rep (c :: cs).length (c :: cs) =
            (if pat ≠ [] ∧ pat.isPrefixOf (c :: cs) then
              rep ++ replaceAllF pat rep cs.length (cs.drop (pat.length - 1))
            else c :: replaceAllF pat rep cs.length cs) from rfl]
      have hdrop : (cs.drop (pat.length - 1)).length ≤ cs.length := by
        rw [List.length_drop]; omega
      by_cases hcond : pat ≠ [] ∧ pat.isPrefixOf (c :: cs)
      · rw [if_pos hcond, if_pos hcond]
        by_cases hn : n = cs.length
        · rw [hn]
        · rw [ih n (by omega) _ (le_trans hdrop hcs),
              ih cs.length (by omega) _ hdrop]
      · rw [if_neg hcond, if_neg hcond]
        by_cases hn : n = cs.length
        · rw [hn]
        · rw [ih n (by omega) cs hcs, ih cs.length (by omega) cs (le_refl _)]

theorem replaceAll_cons_pos (pat rep : List Char) (c : Char) (cs : List Char)
    (hp : pat ≠ []) (hpre : pat.isPrefixOf (c :: cs) = true) :
    replaceAll pat rep (c :: cs) = rep ++ replaceAll pat rep (cs.drop (pat.length - 1)) := by
  show replaceAllF pat rep (c :: cs).length (c :: cs) = _
  rw [show replaceAllF pat rep (c :: cs).length (c :: cs) =
        if pat ≠ [] ∧ pat.isPrefixOf (c :: cs) then
          rep ++ replaceAllF pat rep cs.length (cs.drop (pat.length - 1))
        else c :: replaceAllF pat rep cs.length cs from rfl]
  rw [if_pos ⟨hp, hpre⟩,
      replaceAllF_fuel_inv pat rep cs.length _ (by rw [List.length_drop]; omega)]

theorem replaceAll_cons_neg (pat rep : List Char) (c : Char) (cs : List Char)
    (h : pat.isPrefixOf (c :: cs) = false) :
    replaceAll pat rep (c :: cs) = c :: replaceAll pat rep cs := by
  show replaceAllF pat rep (c :: cs).length (c :: cs) = _
  rw [show replaceAllF pat rep (c :: cs).length (c :: cs) =
        if pat ≠ [] ∧ pat.isPrefixOf (c :: cs) then
          rep ++ replaceAllF pat rep cs.length (cs.drop (pat.length - 1))
        else c :: replaceAllF pat rep cs.length cs from rfl]
  rw [if_neg (fun hand => absurd hand.2 (by simp [h]))]
  rfl

theorem isPrefixOf_append_self (a b : List Char) : a.isPrefixOf (a ++ b) = true := by
  induction a with
  | nil => simp [List.isPrefixOf]
  | cons c cs ih => simp [List.isPrefixOf_cons₂, ih]

theorem eq_take_of_isPrefixOf (t s : List Char) (h : t.isPrefixOf s = true) :
    t = s.take t.length := by
  induction t generalizing s with
  | nil => simp
  | cons c cs ih =>
    cases s with
    | nil => simp [List.isPrefixOf] at h
    | cons d ds =>
      rw [List.isPrefixOf_cons₂] at h
      simp only [Bool.and_eq_true, beq_iff_eq] at h
      rw [List.length_cons, List.take_succ_cons, h.1, ← ih ds h.2]

theorem mem_of_isPrefixOf (t s : List Char) (h : t.isPrefixOf s = true) :
    ∀ x ∈ t, x ∈ s := by
  intro x hx
  rw [eq_take_of_isPrefixOf t s h] at hx
  exact List.take_subset _ _ hx

theorem notPrefixOf_head (c d : Char) (t s : List Char) (h : c ≠ d) :
    (c :: t).isPrefixOf (d :: s) = false := by
  rw [List.isPrefixOf_cons₂]
  simp [h]

theorem isPrefixOf_getq (t s : List Char) (h : t.isPrefixOf s = true)
    (j : Nat) (hj : j < t.length) : s[j]? = t[j]? := by
  induction t generalizing s j with
  | nil => simp at hj
  | cons c cs ih =>
    cases s with
    | nil => simp [List.isPrefixOf] at h
    | cons d ds =>
      rw [List.isPrefixOf_cons₂] at h
      simp only [Bool.and_eq_true, beq_iff_eq] at h
      cases j with
      | zero => simp [h.1]
      | succ j2 =>
        simp only [List.getElem?_cons_succ]
        exact ih ds h.2 j2 (by simpa using hj)

theorem notPrefixOf_mismatch (t a z : List Char) (j : Nat)
    (hja : j < a.length) (hjt : j < t.length) (hne : t[j]? ≠ a[j]?) :
    t.isPrefixOf (a ++ z) = false := by
  cases h : t.isPrefixOf (a ++ z) with
  | false => rfl
  | true =>
    exfalso
    have hg := isPrefixOf_getq t (a ++ z) h j hjt
    rw [List.getElem?_append, if_pos hja] at hg
    exact hne hg.symm

theorem notPrefixOf_over_safe (t k ys : List Char)
    (hk : ∀ c ∈ k, safeChar c = true)
    (ht1 : ∃ c ∈ t, safeChar c = false) (ht2 : sq ∉ t) :
    t.isPrefixOf (k ++ sq :: ys) = false := by
  cases h : t.isPrefixOf (k ++ sq :: ys) with
  | false => rfl
  | true =>
    exfalso
    have ht := eq_take_of_isPrefixOf _ _ h
    rw [List.take_append_eq_append_take] at ht
    by_cases hlen : t.length ≤ k.length
    · rw [Nat.sub_eq_zero_of_le hlen, List.take_zero, List.append_nil] at ht
      obtain ⟨c, hc1, hc2⟩ := ht1
      rw [ht] at hc1
      have hmem : c ∈ k := List.take_subset _ _ hc1
      rw [hk c hmem] at hc2
      simp at hc2
    · obtain ⟨m, hm⟩ : ∃ m, t.length - k.length = m + 1 :=
        ⟨t.length - k.length - 1, by omega⟩
      rw [hm, List.take_succ_cons] at ht
      exact ht2 (ht ▸ List.mem_append_right _ (List.mem_cons_self _ _))

theorem replaceAll_skip (pat rep k y : List Char) (p0 : Char) (ps : List Char)
    (hpat : pat = p0 :: ps) (hk : p0 ∉ k) :
    replaceAll pat rep (k ++ y) = k ++ replaceAll pat rep y := by
  induction k with
  | nil => simp
  | cons c k2 ih =>
    have hc : p0 ≠ c := fun h => hk (h ▸ List.mem_cons_self c k2)
    have hk2 : p0 ∉ k2 := fun h => hk (List.mem_cons_of_mem c h)
    rw [List.cons_append,
        replaceAll_cons_neg pat rep c (k2 ++ y) (by rw [hpat]; exact notPrefixOf_head _ _ _ _ hc),
        ih hk2, List.cons_append]

theorem replaceAll_match (pat rep z : List Char) (hp : pat ≠ []) :
    replaceAll pat rep (pat ++ z) = rep ++ replaceAll pat rep z := by
  obtain ⟨c, cs, rfl⟩ := List.exists_cons_of_ne_nil hp
  rw [List.cons_append,
      replaceAll_cons_pos _ rep c (cs ++ z) hp
        (by rw [← List.cons_append]; exact isPrefixOf_append_self _ _)]
  congr 1
  rw [List.length_cons]
  simp only [Nat.add_sub_cancel]
  rw [List.drop_left]

theorem replaceAll_no_char (pat rep s : List Char) (x : Char)
    (hx : x ∈ pat) (hs : x ∉ s) : replaceAll pat rep s = s := by
  induction s with
  | nil => rfl
  | cons c cs ih =>
    have hnp : pat.isPrefixOf (c :: cs) = false := by
      cases h : pat.isPrefixOf (c :: cs) with
      | false => rfl
      | true => exact absurd (mem_of_isPrefixOf _ _ h x hx) hs
    rw [replaceAll_cons_neg pat rep c cs hnp,
        ih (fun h => hs (List.mem_cons_of_mem c h))]

theorem safe_ne (c x : Char) (hc : safeChar c = true) (hx : safeChar x = false) : c ≠ x :=
  fun h => by rw [h, hx] at hc; exact Bool.false_ne_true hc

theorem safe_notMem (k : List Char) (x : Char)
    (hk : ∀ c ∈ k, safeChar c = true) (hx : safeChar x = false) : x ∉ k :=
  fun hmem => Bool.false_ne_true (hx ▸ hk x hmem)

theorem gitHostPat_data : deps_utils.gitHostPat.data = sq :: hostChars := by decide

theorem gitUrlVar_data : deps_utils.gitUrlVar.data = q2chars := by decide

theorem gitUrlVar_cons : deps_utils.gitUrlVar.data = 'V' :: q2tail := by decide

theorem hostChars_cons : hostChars = 'h' :: "ttp://git.chromium.org".data := by decide

theorem sp4c_eq : sp4c = [' ', ' ', ' ', ' '] := by decide

theorem replaceAll_keyline (pat rep : List Char) (p0 : Char) (pt : List Char)
    (hpat : pat = p0 :: pt) (k y : List Char)
    (hsp : p0 ≠ ' ') (hcol : p0 ≠ ':') (hnl : p0 ≠ '\n')
    (hq1 : pat.isPrefixOf (sq :: (k ++ sq :: ':' :: '\n' :: y)) = false)
    (hq2 : pat.isPrefixOf (sq :: ':' :: '\n' :: y) = false)
    (hkmem : p0 ∉ k) :
    replaceAll pat rep (keylineChars k ++ '\n' :: y) =
      keylineChars k ++ '\n' :: replaceAll pat rep y := by
  have hshape : keylineChars k ++ '\n' :: y =
      sp4c ++ (sq :: (k ++ sq :: ':' :: '\n' :: y)) := by
    simp [keylineChars, List.append_assoc]
  rw [hshape,
      replaceAll_skip pat rep sp4c _ p0 pt hpat (by rw [sp4c_eq]; simp [hsp]),
      replaceAll_cons_neg pat rep sq _ hq1,
      replaceAll_skip pat rep k _ p0 pt hpat hkmem,
      replaceAll_cons_neg pat rep sq _ hq2,
      replaceAll_cons_neg pat rep ':' _ (by rw [hpat]; exact notPrefixOf_head _ _ _ _ hcol),
      replaceAll_cons_neg pat rep '\n' _ (by rw [hpat]; exact notPrefixOf_head _ _ _ _ hnl)]
  simp [keylineChars, List.append_assoc]

theorem r2_valline (sfx y : List Char) (hs : ∀ c ∈ sfx, safeChar c = true) :
    replaceAll deps_utils.gitHostPat.data deps_utils.gitUrlVar.data
        (vallineChars sfx ++ '\n' :: y) =
      valline2Chars sfx ++ '\n' ::
        replaceAll deps_utils.gitHostPat.data deps_utils.gitUrlVar.data y := by
  have hshape : vallineChars sfx ++ '\n' :: y =
      sp8c ++ (deps_utils.gitHostPat.data ++ (sfx ++ sq :: ',' :: '\n' :: y)) := by
    rw [gitHostPat_data]
    simp [vallineChars, List.append_assoc]
  have hq : deps_utils.gitHostPat.data.isPrefixOf (sq :: ',' :: '\n' :: y) = false := by
    rw [gitHostPat_data, List.isPrefixOf_cons₂, hostChars_cons,
        notPrefixOf_head 'h' ',' _ _ (by decide)]
    simp
  rw [hshape,
      replaceAll_skip _ _ sp8c _ sq hostChars gitHostPat_data (by decide),
      replaceAll_match _ _ _ (by rw [gitHostPat_data]; simp),
      replaceAll_skip _ _ sfx _ sq hostChars gitHostPat_data
        (safe_notMem sfx sq hs (by decide)),
      replaceAll_cons_neg _ _ sq _ hq,
      replaceAll_cons_neg _ _ ',' _
        (by rw [gitHostPat_data]; exact notPrefixOf_head _ _ _ _ (by decide)),
      replaceAll_cons_neg _ _ '\n' _
        (by rw [gitHostPat_data]; exact notPrefixOf_head _ _ _ _ (by decide))]
  simp [valline2Chars, List.append_assoc]

theorem r2_entry (k sfx y : List Char)
    (hk : ∀ c ∈ k, safeChar c = true) (hs : ∀ c ∈ sfx, safeChar c = true) :
    replaceAll deps_utils.gitHostPat.data deps_utils.gitUrlVar.data
        (entryChars k sfx ++ y) =
      entry2Chars k sfx ++
        replaceAll deps_utils.gitHostPat.data deps_utils.gitUrlVar.data y := by
  have hq1 : ∀ Y : List Char,
      deps_utils.gitHostPat.data.isPrefixOf (sq :: (k ++ sq :: ':' :: '\n' :: Y)) = false := by
    intro Y
    rw [gitHostPat_data, List.isPrefixOf_cons₂,
        show k ++ sq :: ':' :: '\n' :: Y = k ++ sq :: (':' :: '\n' :: Y) from rfl,
        notPrefixOf_over_safe hostChars k _ hk ⟨':', by decide, by decide⟩ (by decide)]
    simp
  have hq2 : ∀ Y : List Char,
      deps_utils.gitHostPat.data.isPrefixOf (sq :: ':' :: '\n' :: Y) = false := by
    intro Y
    rw [gitHostPat_data, List.isPrefixOf_cons₂, hostChars_cons,
        notPrefixOf_head 'h' ':' _ _ (by decide)]
    simp
  have hshape : entryChars k sfx ++ y =
      keylineChars k ++ '\n' :: (vallineChars sfx ++ '\n' :: y) := by
    simp [entryChars, List.append_assoc]
  rw [hshape,
      replaceAll_keyline _ _ sq hostChars gitHostPat_data k _
        (by decide) (by decide) (by decide) (hq1 _) (hq2 _)
        (safe_notMem k sq hk (by decide)),
      r2_valline sfx y hs]
  simp [entry2Chars, List.append_assoc]

theorem u2_valline (sfx y : List Char) (hs : ∀ c ∈ sfx, safeChar c = true) :
    replaceAll deps_utils.gitUrlVar.data deps_utils.gitHostPat.data
        (valline2Chars sfx ++ '\n' :: y) =
      vallineChars sfx ++ '\n' ::
        replaceAll deps_utils.gitUrlVar.data deps_utils.gitHostPat.data y := by
  have hshape : valline2Chars sfx ++ '\n' :: y =
      sp8c ++ (deps_utils.gitUrlVar.data ++ (sfx ++ sq :: ',' :: '\n' :: y)) := by
    simp [valline2Chars, List.append_assoc]
  rw [hshape,
      replaceAll_skip _ _ sp8c _ 'V' q2tail gitUrlVar_cons (by decide),
      replaceAll_match _ _ _ (by rw [gitUrlVar_cons]; simp),
      replaceAll_skip _ _ sfx _ 'V' q2tail gitUrlVar_cons
        (safe_notMem sfx 'V' hs (by decide)),
      replaceAll_cons_neg _ _ sq _
        (by rw [gitUrlVar_cons]; exact notPrefixOf_head _ _ _ _ (by decide)),
      replaceAll_cons_neg _ _ ',' _
        (by rw [gitUrlVar_cons]; exact notPrefixOf_head _ _ _ _ (by decide)),
      replaceAll_cons_neg _ _ '\n' _
        (by rw [gitUrlVar_cons]; exact notPrefixOf_head _ _ _ _ (by decide)),
      gitHostPat_data]
  simp [vallineChars, List.append_assoc]

theorem u2_entry (k sfx y : List Char)
    (hk : ∀ c ∈ k, safeChar c = true) (hs : ∀ c ∈ sfx, safeChar c = true) :
    replaceAll deps_utils.gitUrlVar.data deps_utils.gitHostPat.data
        (entry2Chars k sfx ++ y) =
      entryChars k sfx ++
        replaceAll deps_utils.gitUrlVar.data deps_utils.gitHostPat.data y := by
  have hshape : entry2Chars k sfx ++ y =
      keylineChars k ++ '\n' :: (valline2Chars sfx ++ '\n' :: y) := by
    simp [entry2Chars, List.append_assoc]
  rw [hshape,
      replaceAll_keyline _ _ 'V' q2tail gitUrlVar_cons k _
        (by decide) (by decide) (by decide)
        (by rw [gitUrlVar_cons]; exact notPrefixOf_head _ _ _ _ (by decide))
        (by rw [gitUrlVar_cons]; exact notPrefixOf_head _ _ _ _ (by decide))
        (safe_notMem k 'V' hk (by decide)),
      u2_valline sfx y hs]
  simp [entryChars, List.append_assoc]

theorem r2_body (ps : List (List Char × List Char))
    (h : ∀ p ∈ ps, (∀ c ∈ p.1, safeChar c = true) ∧ (∀ c ∈ p.2, safeChar c = true)) :
    replaceAll deps_utils.gitHostPat.data deps_utils.gitUrlVar.data
        ((ps.map fun p => entryChars p.1 p.2).flatten ++ [cbrace]) =
      (ps.map fun p => entry2Chars p.1 p.2).flatten ++ [cbrace] := by
  induction ps with
  | nil =>
    simp only [List.map_nil, List.flatten_nil, List.nil_append]
    rw [replaceAll_cons_neg _ _ cbrace []
          (by rw [gitHostPat_data]; exact notPrefixOf_head _ _ _ _ (by decide)),
        replaceAll_nil]
  | cons p ps ih =>
    simp only [List.map_cons, List.flatten_cons, List.append_assoc]
    rw [r2_entry p.1 p.2 _ (h p (List.mem_cons_self p ps)).1 (h p (List.mem_cons_self p ps)).2,
        ih (fun q hq => h q (List.mem_cons_of_mem p hq))]

theorem u2_body (ps : List (List Char × List Char))
    (h : ∀ p ∈ ps, (∀ c ∈ p.1, safeChar c = true) ∧ (∀ c ∈ p.2, safeChar c = true)) :
    replaceAll deps_utils.gitUrlVar.data deps_utils.gitHostPat.data
        ((ps.map fun p => entry2Chars p.1 p.2).flatten ++ [cbrace]) =
      (ps.map fun p => entryChars p.1 p.2).flatten ++ [cbrace] := by
  induction ps with
  | nil =>
    simp only [List.map_nil, List.flatten_nil, List.nil_append]
    rw [replaceAll_cons_neg _ _ cbrace []
          (by rw [gitUrlVar_cons]; exact notPrefixOf_head _ _ _ _ (by decide)),
        replaceAll_nil]
  | cons p ps ih =>
    simp only [List.map_cons, List.flatten_cons, List.append_assoc]
    rw [u2_entry p.1 p.2 _ (h p (List.mem_cons_self p ps)).1 (h p (List.mem_cons_self p ps)).2,
        ih (fun q hq => h q (List.mem_cons_of_mem p hq))]

theorem r2_block (ps : List (List Char × List Char))
    (h : ∀ p ∈ ps, (∀ c ∈ p.1, safeChar c = true) ∧ (∀ c ∈ p.2, safeChar c = true)) :
    replaceAll deps_utils.gitHostPat.data deps_utils.gitUrlVar.data (serializedChars ps) =
      varifiedChars ps := by
  simp only [serializedChars, varifiedChars]
  rw [replaceAll_cons_neg _ _ obrace _
        (by rw [gitHostPat_data]; exact notPrefixOf_head _ _ _ _ (by decide)),
      replaceAll_cons_neg _ _ '\n' _
        (by rw [gitHostPat_data]; exact notPrefixOf_head _ _ _ _ (by decide)),
      r2_body ps h]

theorem u2_block (ps : List (List Char × List Char))
    (h : ∀ p ∈ ps, (∀ c ∈ p.1, safeChar c = true) ∧ (∀ c ∈ p.2, safeChar c = true)) :
    replaceAll deps_utils.gitUrlVar.data deps_utils.gitHostPat.data (varifiedChars ps) =
      serializedChars ps := by
  simp only [serializedChars, varifiedChars]
  rw [replaceAll_cons_neg _ _ obrace _
        (by rw [gitUrlVar_cons]; exact notPrefixOf_head _ _ _ _ (by decide)),
      replaceAll_cons_neg _ _ '\n' _
        (by rw [gitUrlVar_cons]; exact notPrefixOf_head _ _ _ _ (by decide)),
      u2_body ps h]

theorem entryChars_subset (k sfx : List Char) (x : Char) (hx : x ∈ entryChars k sfx) :
    x ∈ k ∨ x ∈ sfx ∨ x ∈ entryConcrete := by
  simp only [entryChars, keylineChars, vallineChars, entryConcrete, List.mem_append,
    List.mem_cons, List.not_mem_nil, or_false] at hx ⊢
  tauto

theorem entry2Chars_subset (k sfx : List Char) (x : Char) (hx : x ∈ entry2Chars k sfx) :
    x ∈ k ∨ x ∈ sfx ∨ x ∈ entry2Concrete := by
  simp only [entry2Chars, keylineChars, valline2Chars, entry2Concrete, gitUrlVar_data,
    List.mem_append, List.mem_cons, List.not_mem_nil, or_false] at hx ⊢
  tauto

theorem not_mem_serialized (x : Char) (hx : safeChar x = false) (hc : x ∉ entryConcrete)
    (ho : x ≠ obrace) (hn : x ≠ '\n') (hcb : x ≠ cbrace)
    (ps : List (List Char × List Char))
    (h : ∀ p ∈ ps, (∀ c ∈ p.1, safeChar c = true) ∧ (∀ c ∈ p.2, safeChar c = true)) :
    x ∉ serializedChars ps := by
  intro hmem
  simp only [serializedChars, List.mem_cons, List.mem_append, List.not_mem_nil,
    or_false] at hmem
  rcases hmem with h1 | h1 | h1 | h1
  · exact ho h1
  · exact hn h1
  · rw [List.mem_flatten] at h1
    obtain ⟨l, hl, hxl⟩ := h1
    rw [List.mem_map] at hl
    obtain ⟨p, hp, hfl⟩ := hl
    rcases entryChars_subset p.1 p.2 x (hfl ▸ hxl) with h2 | h2 | h2
    · exact safe_notMem p.1 x (h p hp).1 hx h2
    · exact safe_notMem p.2 x (h p hp).2 hx h2
    · exact hc h2
  · exact hcb h1

theorem not_mem_varified (x : Char) (hx : safeChar x = false) (hc : x ∉ entry2Concrete)
    (ho : x ≠ obrace) (hn : x ≠ '\n') (hcb : x ≠ cbrace)
    (ps : List (List Char × List Char))
    (h : ∀ p ∈ ps, (∀ c ∈ p.1, safeChar c = true) ∧ (∀ c ∈ p.2, safeChar c = true)) :
    x ∉ varifiedChars ps := by
  intro hmem
  simp only [varifiedChars, List.mem_cons, List.mem_append, List.not_mem_nil,
    or_false] at hmem
  rcases hmem with h1 | h1 | h1 | h1
  · exact ho h1
  · exact hn h1
  · rw [List.mem_flatten] at h1
    obtain ⟨l, hl, hxl⟩ := h1
    rw [List.mem_map] at hl
    obtain ⟨p, hp, hfl⟩ := hl
    rcases entry2Chars_subset p.1 p.2 x (hfl ▸ hxl) with h2 | h2 | h2
    · exact safe_notMem p.1 x (h p hp).1 hx h2
    · exact safe_notMem p.2 x (h p hp).2 hx h2
    · exact hc h2
  · exact hcb h1

theorem varify_data (ps : List (List Char × List Char))
    (h : ∀ p ∈ ps, (∀ c ∈ p.1, safeChar c = true) ∧ (∀ c ∈ p.2, safeChar c = true))
    (s : String) (hs : s.data = serializedChars ps) :
    (deps_utils.Varify s).data = varifiedChars ps := by
  have hnW : 'W' ∉ serializedChars ps :=
    not_mem_serialized 'W' (by decide) (by decide) (by decide) (by decide) (by decide) ps h
  have hnW2 : 'W' ∉ varifiedChars ps :=
    not_mem_varified 'W' (by decide) (by decide) (by decide) (by decide) (by decide) ps h
  have h1 : (pyReplace s deps_utils.webkitTrimmedPat deps_utils.webkitUrlVar).data =
      serializedChars ps := by
    show replaceAll _ _ s.data = _
    rw [hs, replaceAll_no_char _ _ _ 'W' (by decide) hnW]
  have h2 : (pyReplace (pyReplace s deps_utils.webkitTrimmedPat deps_utils.webkitUrlVar)
      deps_utils.gitHostPat deps_utils.gitUrlVar).data = varifiedChars ps := by
    show replaceAll _ _ _ = _
    rw [h1, r2_block ps h]
  show replaceAll _ _ _ = _
  rw [h2, replaceAll_no_char _ _ _ 'W' (by decide) hnW2]

theorem devarify_data (ps : List (List Char × List Char))
    (h : ∀ p ∈ ps, (∀ c ∈ p.1, safeChar c = true) ∧ (∀ c ∈ p.2, safeChar c = true))
    (s : String) (hs : s.data = varifiedChars ps) :
    (devarify s).data = serializedChars ps := by
  have hnV : 'V' ∉ serializedChars ps :=
    not_mem_serialized 'V' (by decide) (by decide) (by decide) (by decide) (by decide) ps h
  have h1 : (pyReplace s deps_utils.gitUrlVar deps_utils.gitHostPat).data =
      serializedChars ps := by
    show replaceAll _ _ s.data = _
    rw [hs, u2_block ps h]
  have h2 : (pyReplace (pyReplace s deps_utils.gitUrlVar deps_utils.gitHostPat)
      deps_utils.webkitRevVar deps_utils.webkitRevPat).data = serializedChars ps := by
    show replaceAll _ _ _ = _
    rw [h1, replaceAll_no_char _ _ _ 'V' (by decide) hnV]
  show replaceAll _ _ _ = _
  rw [h2, replaceAll_no_char _ _ _ 'V' (by decide) hnV]

theorem lbr_data : lbr.data = [obrace] := by decide

theorem rbr_data : rbr.data = [cbrace] := by decide

theorem sqs_data : sqs.data = [sq] := by decide

theorem nl_data : "\n".data = ['\n'] := by decide

theorem colon_nl_data : ":\n".data = [':', '\n'] := by decide

theorem comma_nl_data : ",\n".data = [',', '\n'] := by decide

theorem data_foldl_append (l : List String) (acc : String) :
    (l.foldl (fun r s => r ++ s) acc).data = acc.data ++ (l.map String.data).flatten := by
  induction l generalizing acc with
  | nil => simp
  | cons s l ih =>
    simp [List.foldl_cons, ih, String.data_append, List.flatten_cons, List.append_assoc]

theorem data_join (l : List String) :
    (String.join l).data = (l.map String.data).flatten := by
  show (l.foldl (fun r s => r ++ s) "").data = _
  rw [data_foldl_append]
  simp

theorem prettyEntry_data (k sfx : String) :
    (deps_utils.prettyEntry (k, some ("http://git.chromium.org" ++ sfx))).data =
      entryChars k.data sfx.data := by
  simp [deps_utils.prettyEntry, pyStrOpt, String.data_append, sqs_data,
    colon_nl_data, comma_nl_data, entryChars, keylineChars, vallineChars, sp4c, sp8c,
    hostChars, List.append_assoc]

theorem map_congr_mem {α β : Type} (l : List α) (f g : α → β)
    (h : ∀ a ∈ l, f a = g a) : l.map f = l.map g := by
  induction l with
  | nil => rfl
  | cons a l ih =>
    simp only [List.map_cons, h a (List.mem_cons_self a l),
      ih (fun b hb => h b (List.mem_cons_of_mem a hb))]

theorem insertByKey_map (e : String × String) (l : List (String × String)) :
    deps_utils.insertByKey (e.1, some ("http://git.chromium.org" ++ e.2))
        (l.map (fun x => (x.1, some ("http://git.chromium.org" ++ x.2)))) =
      (insertPair e l).map (fun x => (x.1, some ("http://git.chromium.org" ++ x.2))) := by
  induction l with
  | nil => rfl
  | cons e2 l ih =>
    by_cases hlt : e.1 < e2.1
    · simp [deps_utils.insertByKey, insertPair, hlt]
    · simp [deps_utils.insertByKey, insertPair, hlt, ih]

theorem sortByKey_mkHostDeps (es : List (String × String)) :
    deps_utils.sortByKey (mkHostDeps es) = mkHostDeps (sortPairs es) := by
  induction es with
  | nil => rfl
  | cons e es ih =>
    have h1 : deps_utils.sortByKey (mkHostDeps (e :: es)) =
        deps_utils.insertByKey (e.1, some ("http://git.chromium.org" ++ e.2))
          (deps_utils.sortByKey (mkHostDeps es)) := rfl
    have h2 : sortPairs (e :: es) = insertPair e (sortPairs es) := rfl
    rw [h1, ih, h2]
    exact insertByKey_map e (sortPairs es)

theorem mem_insertPair (x e : String × String) (l : List (String × String))
    (h : x ∈ insertPair e l) : x = e ∨ x ∈ l := by
  induction l with
  | nil => simpa [insertPair] using h
  | cons e2 l ih =>
    simp only [insertPair] at h
    by_cases hlt : e.1 < e2.1
    · rw [if_pos hlt] at h
      simp only [List.mem_cons] at h ⊢
      tauto
    · rw [if_neg hlt] at h
      rcases List.mem_cons.mp h with h2 | h2
      · exact Or.inr (List.mem_cons.mpr (Or.inl h2))
      · rcases ih h2 with h3 | h3
        · exact Or.inl h3
        · exact Or.inr (List.mem_cons.mpr (Or.inr h3))

theorem mem_sortPairs (x : String × String) (l : List (String × String))
    (h : x ∈ sortPairs l) : x ∈ l := by
  induction l with
  | nil => exact absurd h (List.not_mem_nil x)
  | cons e l ih =>
    have h2 : x ∈ insertPair e (sortPairs l) := h
    rcases mem_insertPair x e (sortPairs l) h2 with h3 | h3
    · rw [h3]
      exact List.mem_cons_self e l
    · exact List.mem_cons_of_mem e (ih h3)

theorem prettyDeps_data (es : List (String × String)) :
    (deps_utils.PrettyDeps (mkHostDeps es)).data =
      serializedChars ((sortPairs es).map (fun e => (e.1.data, e.2.data))) := by
  simp only [deps_utils.PrettyDeps, sortByKey_mkHostDeps, String.data_append, data_join,
    lbr_data, rbr_data, nl_data, List.map_map]
  have hmap : (mkHostDeps (sortPairs es)).map (String.data ∘ deps_utils.prettyEntry) =
      ((sortPairs es).map (fun e => (e.1.data, e.2.data))).map
        (fun p => entryChars p.1 p.2) := by
    simp only [mkHostDeps, List.map_map]
    apply map_congr_mem
    intro e he
    show (deps_utils.prettyEntry (e.1, some ("http://git.chromium.org" ++ e.2))).data =
      entryChars e.1.data e.2.data
    exact prettyEntry_data e.1 e.2
  rw [hmap]
  simp [serializedChars, List.append_assoc]

theorem varData : "Var(".data = ['V', 'a', 'r', '('] := by decide

theorem takeWhile_append_eq (a b : List Char) (x : Char) (ha : x ∉ a) :
    (a ++ x :: b).takeWhile (fun c => !decide (c = x)) = a := by
  induction a with
  | nil => simp [List.takeWhile_cons]
  | cons c a ih =>
    have hcx : c ≠ x := fun h => ha (h ▸ List.mem_cons_self c a)
    simp [List.takeWhile_cons, hcx, ih (fun h => ha (List.mem_cons_of_mem c h))]

theorem parseQuoted_spec (a t : List Char) (ha : sq ∉ a) :
    parseQuoted (sq :: (a ++ sq :: t)) = some (String.mk a, t) := by
  have h1 := takeWhile_append_eq a t sq ha
  simp [parseQuoted, h1, List.drop_left]

theorem parseTerm_gitUrl (v : String) (t : List Char) :
    parseTerm [("git_url", v)] (deps_utils.gitUrlVar.data ++ t) =
      some (v, ' ' :: '+' :: ' ' :: sq :: t) := rfl

theorem parseTerm_quoted (vars : List (String × String)) (a t : List Char) (ha : sq ∉ a) :
    parseTerm vars (sq :: (a ++ sq :: t)) = some (String.mk a, t) := by
  rw [parseTerm, varData, notPrefixOf_head 'V' sq _ _ (by decide),
      if_neg Bool.false_ne_true]
  exact parseQuoted_spec a t ha

theorem parseExpr_varified (v : String) (sfx : List Char)
    (hs : ∀ c ∈ sfx, safeChar c = true) :
    parseExpr [("git_url", v)] (deps_utils.gitUrlVar.data ++ (sfx ++ [sq, ','])) =
      some (v ++ String.mk sfx, [',']) := by
  have hdata : " + ".data = [' ', '+', ' '] := by decide
  have h1 := parseTerm_gitUrl v (sfx ++ [sq, ','])
  have h2 : [' ', '+', ' '].isPrefixOf (' ' :: '+' :: ' ' :: sq :: (sfx ++ [sq, ','])) =
      true := by
    simp [List.isPrefixOf]
  have h3 : (' ' :: '+' :: ' ' :: sq :: (sfx ++ [sq, ','])).drop 3 =
      sq :: (sfx ++ [sq, ',']) := rfl
  have h4 : parseTerm [("git_url", v)] (sq :: (sfx ++ [sq, ','])) =
      some (String.mk sfx, [',']) := by
    rw [show sfx ++ [sq, ','] = sfx ++ sq :: [','] from rfl]
    exact parseTerm_quoted _ sfx [','] (safe_notMem sfx sq hs (by decide))
  have h5 : [' ', '+', ' '].isPrefixOf [','] = false := by decide
  simp [parseExpr, h1, hdata, h2, h3, h4, h5]

theorem parseEntries_cons (v : String) (k sfx : List Char)
    (hk : ∀ c ∈ k, safeChar c = true) (hs : ∀ c ∈ sfx, safeChar c = true)
    (rest : List (List Char)) (tl : List (String × String))
    (hrest : parseEntries [("git_url", v)] rest = some tl) :
    parseEntries [("git_url", v)] (keylineChars k :: valline2Chars sfx :: rest) =
      some ((String.mk k, v ++ String.mk sfx) :: tl) := by
  have e1 : keylineChars k = "    ".data ++ (sq :: (k ++ sq :: [':'])) := by
    simp [keylineChars, sp4c]
  have e2 : ("    ".data ++ (sq :: (k ++ sq :: [':']))).drop 4 =
      sq :: (k ++ sq :: [':']) := by
    rw [show (4 : Nat) = "    ".data.length from by decide, List.drop_left]
  have e3 : parseQuoted (sq :: (k ++ sq :: [':'])) = some (String.mk k, [':']) :=
    parseQuoted_spec k [':'] (safe_notMem k sq hk (by decide))
  have e4 : valline2Chars sfx =
      "        ".data ++ (deps_utils.gitUrlVar.data ++ (sfx ++ [sq, ','])) := by
    simp [valline2Chars, sp8c, List.append_assoc]
  have e5 : ("        ".data ++ (deps_utils.gitUrlVar.data ++ (sfx ++ [sq, ',']))).drop 8 =
      deps_utils.gitUrlVar.data ++ (sfx ++ [sq, ',']) := by
    rw [show (8 : Nat) = "        ".data.length from by decide, List.drop_left]
  have e6 := parseExpr_varified v sfx hs
  simp [parseEntries, e1, e2, e3, e4, e5, e6, isPrefixOf_append_self, hrest]

theorem parseEntries_block (v : String) (ps : List (List Char × List Char))
    (h : ∀ p ∈ ps, (∀ c ∈ p.1, safeChar c = true) ∧ (∀ c ∈ p.2, safeChar c = true)) :
    parseEntries [("git_url", v)]
        ((ps.map fun p => [keylineChars p.1, valline2Chars p.2]).flatten ++ [[cbrace]]) =
      some (ps.map fun p => (String.mk p.1, v ++ String.mk p.2)) := by
  induction ps with
  | nil => simp [parseEntries, rbr_data]
  | cons p ps ih =>
    simp only [List.map_cons, List.flatten_cons, List.append_assoc, List.cons_append,
      List.nil_append]
    rw [parseEntries_cons v p.1 p.2 (h p (List.mem_cons_self p ps)).1
        (h p (List.mem_cons_self p ps)).2 _ _
        (ih (fun q hq => h q (List.mem_cons_of_mem p hq)))]

theorem noNL_keyline (k : List Char) (hk : ∀ c ∈ k, safeChar c = true) :
    '\n' ∉ keylineChars k := by
  intro h
  have h1 : ('\n' : Char) ∉ sp4c := by decide
  have h2 : '\n' ∉ k := safe_notMem k '\n' hk (by decide)
  have h3 : ¬(('\n' : Char) = sq) := by decide
  have h4 : ¬(('\n' : Char) = ':') := by decide
  simp only [keylineChars, List.mem_append, List.mem_cons, List.not_mem_nil, or_false] at h
  tauto

theorem noNL_valline2 (sfx : List Char) (hs : ∀ c ∈ sfx, safeChar c = true) :
    '\n' ∉ valline2Chars sfx := by
  intro h
  have h1 : ('\n' : Char) ∉ sp8c := by decide
  have h2 : '\n' ∉ sfx := safe_notMem sfx '\n' hs (by decide)
  have h3 : ¬(('\n' : Char) = sq) := by decide
  have h4 : ¬(('\n' : Char) = ',') := by decide
  have h5 : ('\n' : Char) ∉ q2chars := by decide
  simp only [valline2Chars, gitUrlVar_data, List.mem_append, List.mem_cons,
    List.not_mem_nil, or_false] at h
  tauto

theorem lines_body (ps : List (List Char × List Char))
    (h : ∀ p ∈ ps, (∀ c ∈ p.1, safeChar c = true) ∧ (∀ c ∈ p.2, safeChar c = true)) :
    pySplit '\n' ((ps.map fun p => entry2Chars p.1 p.2).flatten ++ [cbrace]) =
      (ps.map fun p => [keylineChars p.1, valline2Chars p.2]).flatten ++ [[cbrace]] := by
  induction ps with
  | nil =>
    simp only [List.map_nil, List.flatten_nil, List.nil_append]
    rw [pySplit_no_sep '\n' [cbrace] (by decide)]
  | cons p ps ih =>
    have h1 := h p (List.mem_cons_self p ps)
    simp only [List.map_cons, List.flatten_cons, List.append_assoc]
    have hshape : entry2Chars p.1 p.2 ++
        ((ps.map fun q => entry2Chars q.1 q.2).flatten ++ [cbrace]) =
        keylineChars p.1 ++ '\n' :: (valline2Chars p.2 ++ '\n' ::
          ((ps.map fun q => entry2Chars q.1 q.2).flatten ++ [cbrace])) := by
      simp [entry2Chars, List.append_assoc]
    rw [hshape, pySplit_append_sep '\n' _ _ (noNL_keyline p.1 h1.1),
        pySplit_append_sep '\n' _ _ (noNL_valline2 p.2 h1.2),
        ih (fun q hq => h q (List.mem_cons_of_mem p hq))]
    simp

theorem lines_varified (ps : List (List Char × List Char))
    (h : ∀ p ∈ ps, (∀ c ∈ p.1, safeChar c = true) ∧ (∀ c ∈ p.2, safeChar c = true)) :
    pySplit '\n' (varifiedChars ps) =
      [obrace] :: ((ps.map fun p => [keylineChars p.1, valline2Chars p.2]).flatten ++
        [[cbrace]]) := by
  have hfirst : varifiedChars ps = [obrace] ++ '\n' ::
      ((ps.map fun p => entry2Chars p.1 p.2).flatten ++ [cbrace]) := rfl
  rw [hfirst, pySplit_append_sep '\n' _ _ (by decide), lines_body ps h]

theorem parseDepsBlock_varified (v : String) (ps : List (List Char × List Char))
    (h : ∀ p ∈ ps, (∀ c ∈ p.1, safeChar c = true) ∧ (∀ c ∈ p.2, safeChar c = true))
    (s : String) (hs : s.data = varifiedChars ps) :
    parseDepsBlock [("git_url", v)] s =
      some (ps.map fun p => (String.mk p.1, v ++ String.mk p.2)) := by
  simp [parseDepsBlock, hs, lines_varified ps h, lbr_data, parseEntries_block v ps h]

/-- Claim C7, counterexample to the reversibility half: the writer
serializes a manifest through Varify, which replaces the quoted git
server host by a git_url variable reference; but the declared value of
git_url in the variable set that main writes out is the googlesource
host, not the replaced literal, so substituting the declared variable
values back into the varified text (here, by evaluating the written
block the way GetDepsContent does) yields a different location string
than the pre-substitution manifest contained. -/
theorem claim_C7_roundtrip_counterexample :
    parseDepsBlock mainDepsVars
        (deps_utils.Varify (deps_utils.PrettyDeps
          [("src/foo", some "http://git.chromium.org/chromium/deps/foo.git@abc")])) =
      some [("src/foo", "https://chromium.googlesource.com/chromium/deps/foo.git@abc")] ∧
    ("https://chromium.googlesource.com/chromium/deps/foo.git@abc" : String) ≠
      "http://git.chromium.org/chromium/deps/foo.git@abc" :=
  ⟨by decide, by decide⟩

/-- Claim C7 (amended): for a manifest whose every location is the git
server host followed by a suffix, and whose keys and suffixes use only
safe characters (lower case letters, digits, URL punctuation), the
Varify substitution pass is reversible at the textual level by putting
the replaced literal back for each introduced variable reference, and
re-parsing the varified block with git_url bound to the replaced host
literal (not to the declared value in the emitted variable set)
reproduces exactly the sorted path to location mapping of the
serialized manifest. -/
theorem claim_C7_roundtrip_amended (es : List (String × String))
    (hsafe : ∀ e ∈ es, (∀ c ∈ e.1.data, safeChar c = true) ∧
      (∀ c ∈ e.2.data, safeChar c = true)) :
    devarify (deps_utils.Varify (deps_utils.PrettyDeps (mkHostDeps es))) =
      deps_utils.PrettyDeps (mkHostDeps es) ∧
    parseDepsBlock [("git_url", "http://git.chromium.org")]
        (deps_utils.Varify (deps_utils.PrettyDeps (mkHostDeps es))) =
      some ((sortPairs es).map fun e => (e.1, "http://git.chromium.org" ++ e.2)) := by
  have hps : ∀ p ∈ (sortPairs es).map (fun e => (e.1.data, e.2.data)),
      (∀ c ∈ p.1, safeChar c = true) ∧ (∀ c ∈ p.2, safeChar c = true) := by
    intro p hp
    rw [List.mem_map] at hp
    obtain ⟨e, he, rfl⟩ := hp
    exact hsafe e (mem_sortPairs e es he)
  have hser := prettyDeps_data es
  have hvar := varify_data _ hps _ hser
  constructor
  · exact String.ext (by rw [devarify_data _ hps _ hvar, hser])
  · rw [parseDepsBlock_varified "http://git.chromium.org" _ hps _ hvar, List.map_map]
    congr 1

/-- Witness for the amended claim C7 at a concrete one entry manifest. -/
theorem claim_C7_amended_witness :
    (∀ e ∈ [("src/foo", "/chromium/deps/foo.git@abc")],
      (∀ c ∈ (Prod.fst e).data, safeChar c = true) ∧
      (∀ c ∈ (Prod.snd e).data, safeChar c = true)) ∧
    (devarify (deps_utils.Varify (deps_utils.PrettyDeps
        (mkHostDeps [("src/foo", "/chromium/deps/foo.git@abc")]))) =
      deps_utils.PrettyDeps (mkHostDeps [("src/foo", "/chromium/deps/foo.git@abc")]) ∧
    parseDepsBlock [("git_url", "http://git.chromium.org")]
        (deps_utils.Varify (deps_utils.PrettyDeps
          (mkHostDeps [("src/foo", "/chromium/deps/foo.git@abc")]))) =
      some ((sortPairs [("src/foo", "/chromium/deps/foo.git@abc")]).map
        fun e => (e.1, "http://git.chromium.org" ++ e.2))) :=
  ⟨by decide, claim_C7_roundtrip_amended [("src/foo", "/chromium/deps/foo.git@abc")]
    (by decide)⟩

end Deps2Git
